import Mathlib

/-!
Verification development for InquirerPy's numeric prompt
(`src/InquirerPy/prompts/number.py`, class `NumberPrompt`).

The prompt state is embedded shallowly: the two prompt_toolkit `Buffer`s become
`EditBuffer` records, the widget fields (`_float`, `_min`, `_max`, `_default`,
`_ending_zero`, `_whole_width`, `_integral_width`, the focused window and the
validation-error message) become fields of `PState`.  Python ints are `Int`;
Python floats are modelled exactly by `Decimal` below (a CPython float is
identified by its shortest round-trip decimal representation, which is what
`str`/`float` read and write; the model is exact on every decimal the prompt
manipulates).  The re-entrant synchronous change callbacks are executed by a
fueled interpreter `run`; fuel only bounds the re-entrant callback depth.
-/

/-- Characters of a string literal, used to state buffer texts. -/
def chars (s : String) : List Char := s.data

/-- ASCII digit test, as Python's numeric parsers use it. -/
def isDig (c : Char) : Bool := 48 ≤ c.toNat && c.toNat ≤ 57

/-- The ASCII character of the digit value `d < 10`. -/
def digitChar (d : Nat) : Char := Char.ofNat (48 + d)

/-- The digit value of an ASCII digit character. -/
def digitVal (c : Char) : Nat := c.toNat - 48

/-- Little-endian base-10 digit values of `n` (empty for 0); total for `fuel ≥ n`. -/
def digitsAux : Nat → Nat → List Nat
  | 0, _ => []
  | _ + 1, 0 => []
  | fuel + 1, n + 1 => (n + 1) % 10 :: digitsAux fuel ((n + 1) / 10)

/-- Little-endian base-10 digit values of `n`, empty exactly for `n = 0`. -/
def digitsLE (n : Nat) : List Nat := digitsAux n n

/-- Value of a little-endian digit list. -/
def valLE : List Nat → Nat
  | [] => 0
  | d :: ds => d + 10 * valLE ds

/-- Python `str` of a nonnegative int, as characters. -/
def natChars (n : Nat) : List Char :=
  if n = 0 then ['0'] else ((digitsLE n).map digitChar).reverse

/-- Python `str` of an int, as characters. -/
def intChars (n : Int) : List Char :=
  if n < 0 then '-' :: natChars n.natAbs else natChars n.natAbs

/-- Read a nonempty all-digit character list as a number. -/
def readDigits (cs : List Char) : Option Nat :=
  if cs = [] then none
  else if cs.all isDig then some (valLE ((cs.map digitVal).reverse)) else none

/-- Python `int(text)` on sign/digit texts: one optional leading `-` or `+`, then
one or more ASCII digits, raising (`none`) otherwise.  (Python additionally strips
surrounding whitespace and accepts underscore digit separators; no such text is
ever held by this prompt's buffers, whose contents come from digit keys, the `-`
toggle and the prompt's own `str(int)` / `str(float)` writes.) -/
def pyInt : List Char → Option Int
  | '-' :: cs => (readDigits cs).map (fun n => -(n : Int))
  | '+' :: cs => (readDigits cs).map (fun n => (n : Int))
  | cs => (readDigits cs).map (fun n => (n : Int))

/-- Exact decimal number `(-1)^sign * mant / 10^exp`: the model of a Python float.
The sign is a separate field so that the IEEE signed zero `-0.0` (which CPython
prints as `"-0.0"`) is representable. -/
structure Decimal where
  sign : Bool
  mant : Nat
  exp : Nat
deriving Repr, DecidableEq

/-- Strip factors of ten from `(mant, exp)`: the canonical mantissa/exponent pair,
mirroring that CPython's float `repr` never shows trailing fractional zeros. -/
def decNorm (s : Bool) : Nat → Nat → Decimal
  | m, 0 => ⟨s, m, 0⟩
  | m, e + 1 => if m % 10 = 0 then decNorm s (m / 10) e else ⟨s, m, e + 1⟩

/-- A `Decimal` in the canonical form `decNorm` produces. -/
def Decimal.IsNorm (d : Decimal) : Prop := d.exp = 0 ∨ d.mant % 10 ≠ 0

instance (d : Decimal) : Decidable d.IsNorm := by unfold Decimal.IsNorm; infer_instance

/-- Signed mantissa. -/
def Decimal.sval (d : Decimal) : Int := if d.sign then -(d.mant : Int) else (d.mant : Int)

/-- Exact value of a `Decimal` as a rational. -/
def Decimal.q (d : Decimal) : ℚ := (d.sval : ℚ) / 10 ^ d.exp

/-- Numeric `≤` on decimals (cross-multiplied, exact — IEEE comparison of the
corresponding floats agrees on all values this model produces). -/
def decLe (a b : Decimal) : Bool := decide (a.sval * 10 ^ b.exp ≤ b.sval * 10 ^ a.exp)

/-- Numeric `<` on decimals. -/
def decLt (a b : Decimal) : Bool := decide (a.sval * 10 ^ b.exp < b.sval * 10 ^ a.exp)

/-- Pad a little-endian digit list with high-order zeros to length `len`. -/
def padTo (len : Nat) (ds : List Nat) : List Nat := ds ++ List.replicate (len - ds.length) 0

/-- Little-endian digit lists `(fractional part, integer part)` of the fixed-point
rendering of mantissa `m` with `e ≥ 1` fractional digits. -/
def fixedParts (m e : Nat) : List Nat × List Nat :=
  let ds := padTo (e + 1) (digitsLE m)
  (ds.take e, ds.drop e)

/-- Decimal exponent of the leading significant digit (`floor(log10 |v|)`). -/
def dece10 (d : Decimal) : Int := ((digitsLE d.mant).length : Int) - 1 - d.exp

/-- Strip trailing zero digits from a nonzero mantissa; total for `fuel ≥ m`. -/
def stripTensAux : Nat → Nat → Nat
  | 0, m => m
  | f + 1, m => if m ≠ 0 ∧ m % 10 = 0 then stripTensAux f (m / 10) else m

/-- Significant digits of `m` (trailing zeros removed). -/
def sigMant (m : Nat) : Nat := stripTensAux m m

/-- Does `repr` choose fixed-point notation for this value?  CPython uses it
exactly when the value is zero or its decimal exponent lies in `[-4, 16)`. -/
def decFixed (d : Decimal) : Bool :=
  d.mant = 0 ∨ (-4 ≤ dece10 d ∧ dece10 d < 16)

/-- Mantissa adjusted so the fixed rendering always has ≥ 1 fractional digit
(`str(2.0) = "2.0"`): a tenfold mantissa when the exponent is zero. -/
def fixedM (d : Decimal) : Nat := if d.exp = 0 then d.mant * 10 else d.mant

/-- Fractional digit count of the fixed rendering (at least one). -/
def fixedE (d : Decimal) : Nat := if d.exp = 0 then 1 else d.exp

/-- The sign prefix of `str`. -/
def sgnChars (d : Decimal) : List Char := if d.sign then ['-'] else []

/-- The integer-part digit characters of the fixed rendering. -/
def ipChars (d : Decimal) : List Char :=
  ((fixedParts (fixedM d) (fixedE d)).2.map digitChar).reverse

/-- The fractional-part digit characters of the fixed rendering. -/
def fpChars (d : Decimal) : List Char :=
  ((fixedParts (fixedM d) (fixedE d)).1.map digitChar).reverse

/-- Python `str()` / `repr()` of the float denoted by a canonical `Decimal`:
fixed-point notation when `decFixed`, scientific notation (`1e-05`, `1.5e+16`,
exponent zero-padded to two digits) otherwise — exactly CPython's
shortest-repr formatting choice. -/
def floatChars (d : Decimal) : List Char :=
  if decFixed d then
    sgnChars d ++ ipChars d ++ '.' :: fpChars d
  else
    let ds := ((digitsLE (sigMant d.mant)).map digitChar).reverse
    let mantissaPart : List Char :=
      match ds with
      | [] => []
      | c :: rest => if rest = [] then [c] else c :: '.' :: rest
    let eAbs := (dece10 d).natAbs
    let eDigits := if eAbs < 10 then '0' :: natChars eAbs else natChars eAbs
    sgnChars d ++ mantissaPart ++ 'e' :: (if dece10 d < 0 then '-' else '+') :: eDigits

/-- Python `str.split(".")` on a character list. -/
def dotSplit : List Char → List (List Char)
  | [] => [[]]
  | '.' :: cs => [] :: dotSplit cs
  | c :: cs =>
    match dotSplit cs with
    | [] => [[c]]
    | p :: ps => (c :: p) :: ps

/-- Python `float(text)` on sign/digit/dot texts: one optional leading sign, then
digits with at most one `.` and at least one digit in total, raising (`none`)
otherwise.  (Python additionally accepts `inf`/`nan`, exponent notation and
surrounding whitespace; the prompt's buffers never hold such text except after a
scientific-notation write, a state the theorems below do not traverse.) -/
def pyFloat (cs : List Char) : Option Decimal :=
  let p : Bool × List Char :=
    match cs with
    | '-' :: rest => (true, rest)
    | '+' :: rest => (false, rest)
    | rest => (false, rest)
  match dotSplit p.2 with
  | [ip] =>
    if ip ≠ [] ∧ ip.all isDig then
      some (decNorm p.1 (valLE ((ip.map digitVal).reverse)) 0)
    else none
  | [ip, fp] =>
    if ip ++ fp ≠ [] ∧ (ip ++ fp).all isDig then
      some (decNorm p.1 (valLE (((ip ++ fp).map digitVal).reverse)) fp.length)
    else none
  | _ => none

/-- A Python numeric value as the prompt handles it: an int or a float. -/
inductive Val where
  | i (n : Int)
  | f (d : Decimal)
deriving Repr, DecidableEq

/-- Python `str` of a numeric value. -/
def pyStrChars : Val → List Char
  | .i n => intChars n
  | .f d => floatChars d

/-- Python `<` between numeric values (exact mixed int/float comparison). -/
def valLt : Val → Val → Bool
  | .i m, .i n => decide (m < n)
  | .i m, .f d => decide (m * 10 ^ d.exp < d.sval)
  | .f d, .i n => decide (d.sval < n * 10 ^ d.exp)
  | .f a, .f b => decLt a b

/-- Python builtin `max(a, b)`: the second argument only on strict excess. -/
def pymax (a b : Val) : Val := if valLt a b then b else a

/-- Python builtin `min(a, b)`: the second argument only on strict deficit. -/
def pymin (a b : Val) : Val := if valLt b a then b else a

/-- Python builtin `float()` applied to a numeric value. -/
def pyFloatOfVal : Val → Val
  | .i n => .f ⟨decide (n < 0), n.natAbs, 0⟩
  | .f d => .f d

/-- One prompt_toolkit `Buffer`, as the spec's EditBuffer: text plus cursor
offset, with the API keeping `0 ≤ cursor ≤ len(text)`. -/
structure EditBuffer where
  text : List Char
  cursor : Nat
deriving Repr, DecidableEq

/-- Which of the two input regions (windows/buffers) is meant. -/
inductive Region where
  | whole
  | integral
deriving Repr, DecidableEq

/-- The `NumberPrompt` state: widget fields plus the two buffers.  `err?` models
the validation-error message recorded by `_set_error` (from the base prompt,
outside this repository's numeric core).  Modelled from the spec: `_set_error`
records a validation error message which a conditional window displays. -/
structure PState where
  float : Bool
  min? : Option Val
  max? : Option Val
  dflt : Val
  endingZero : Bool
  whole : EditBuffer
  integral : EditBuffer
  focus : Region
  err? : Option (List Char)
  wholeWidth : Nat
  integralWidth : Nat
deriving Repr, DecidableEq

/-- The buffer of a region. -/
def bufOf (st : PState) : Region → EditBuffer
  | .whole => st.whole
  | .integral => st.integral

/-- Replace the buffer of a region. -/
def putBuf (st : PState) : Region → EditBuffer → PState
  | .whole, b => { st with whole := b }
  | .integral, b => { st with integral := b }

/-- `focus_buffer` property: the currently editable buffer. -/
def focus_buffer (st : PState) : EditBuffer := bufOf st st.focus

/-- `self._set_error(self._value_error_message)`.  Modelled from the spec:
`_set_error` (base prompt) records the message for the validation window. -/
def setErrorS (st : PState) : PState :=
  { st with err? := some (chars "Remove any non-integer value") }

/-- Does the text start with the `-` sign?  (Python `text.startswith("-")`.) -/
def startsDash : List Char → Bool
  | '-' :: _ => true
  | _ => false

/-- `_ending_zero` recomputation in the value getter:
`text.endswith("0") if len(text) > 1 else False`. -/
def ez (cs : List Char) : Bool := decide (1 < cs.length) && cs.getLast? == some '0'

/-- prompt_toolkit `Buffer.cursor_position` setter: clamp into `[0, len(text)]`,
and when the position changed fire `_on_cursor_position_change`, which moves a
cursor resting at offset 0 to 1 whenever the focused buffer's text starts with
`-`.  That callback's own write re-fires the event with cursor 1, for which the
callback is a no-op; the settled result is written directly here. -/
def cursor_set (st : PState) (r : Region) (v : Int) : PState :=
  let b := bufOf st r
  let v1 : Nat := min v.toNat b.text.length
  if v1 = b.cursor then st
  else
    let st1 := putBuf st r { b with cursor := v1 }
    if startsDash (focus_buffer st1).text && v1 = 0 then
      putBuf st1 r { bufOf st1 r with cursor := min 1 (bufOf st1 r).text.length }
    else st1

/-- The `value` property getter: int mode parses the whole buffer; float mode
first re-derives `_ending_zero` from the fractional text, then parses
`f"{whole}.{integral}"`.  A parse failure records the validation error and
returns `self._default`. -/
def value_get (st : PState) : Val × PState :=
  if st.float = false then
    match pyInt st.whole.text with
    | some n => (.i n, st)
    | none => (st.dflt, setErrorS st)
  else
    let st1 := { st with endingZero := ez st.integral.text }
    match pyFloat (st1.whole.text ++ '.' :: st1.integral.text) with
    | some d => (.f d, st1)
    | none => (st1.dflt, setErrorS st1)

/-- Result of an operation that may re-enter the callbacks: normal return, an
uncaught exception (`crash` — only the tuple unpacking of `str(value).split "."`
in the float-mode value setter can raise one), or interpreter fuel exhaustion
(not a program behaviour; theorems supply sufficient fuel). -/
inductive R where
  | ok (st : PState)
  | crash (st : PState)
  | nofuel
deriving Repr, DecidableEq

/-- Sequence two operations, propagating crash and fuel exhaustion. -/
def R.bind : R → (PState → R) → R
  | .ok st, k => k st
  | .crash st, _ => .crash st
  | .nofuel, _ => .nofuel

/-- The mutually re-entrant operations of the prompt. -/
inductive Op where
  | setText (r : Region) (s : List Char)
  | onTextChanged (r : Region)
  | value_set (v : Val)

/-- The clamping prologue of the `value` setter: raise to `self._min` and lower
to `self._max` when configured, each bound passed through `float()` in float
mode. -/
def clampVal (st : PState) (v : Val) : Val :=
  let v1 :=
    match st.min? with
    | some m => pymax v (if st.float then pyFloatOfVal m else m)
    | none => v
  match st.max? with
  | some m => pymin v1 (if st.float then pyFloatOfVal m else m)
  | none => v1

/-- Fueled interpreter for the re-entrant core:

* `setText r s` — prompt_toolkit `Buffer.text` setter: clamp the cursor into the
  new text, store it, and fire `on_text_changed` only when the text actually
  changed (the guard that keeps the callbacks from recursing forever);
* `onTextChanged r` — `_on_whole_text_change` / `_on_integral_text_change`:
  recompute the region width as `len(text) + 1`, then `_on_text_change`: when the
  text is nonempty and not `"-"`, run `self.value = self.value` (a full getter
  read followed by a setter write), and finally move a cursor resting at 0 past a
  leading `-`;
* `value_set v` — the `value` property setter: clamp to the configured bounds
  (converted with `float()` in float mode), then write `str(value)` into the
  whole buffer in int mode, or split on `"."` and write both buffers in float
  mode, appending a literal `"0"` to the fractional text when `_ending_zero` is
  set.  `str(value).split(".")` unpacking into two names raises (`crash`) unless
  the split has exactly two parts. -/
def run : Nat → PState → Op → R
  | 0, _, _ => .nofuel
  | fuel + 1, st, .setText r s =>
    let b := bufOf st r
    let st1 := if s.length < b.cursor then cursor_set st r (s.length : Int) else st
    let b1 := bufOf st1 r
    if b1.text = s then .ok st1
    else run fuel (putBuf st1 r { b1 with text := s }) (.onTextChanged r)
  | fuel + 1, st, .onTextChanged r =>
    let st0 :=
      match r with
      | .whole => { st with wholeWidth := (bufOf st r).text.length + 1 }
      | .integral => { st with integralWidth := (bufOf st r).text.length + 1 }
    let b := bufOf st0 r
    let step1 : R :=
      if b.text ≠ [] ∧ b.text ≠ ['-'] then
        let p := value_get st0
        run fuel p.2 (.value_set p.1)
      else .ok st0
    step1.bind fun st2 =>
      let b2 := bufOf st2 r
      .ok (if startsDash b2.text && b2.cursor == 0 then cursor_set st2 r 1 else st2)
  | fuel + 1, st, .value_set v =>
    let v2 := clampVal st v
    if st.float = false then
      run fuel st (.setText .whole (pyStrChars v2))
    else
      match dotSplit (pyStrChars v2) with
      | [w, i] =>
        (run fuel st (.setText .whole w)).bind fun st1 =>
          run fuel st1 (.setText .integral (if st1.endingZero then i ++ ['0'] else i))
      | _ => .crash st

/-- The `value` property setter, entered from outside a callback. -/
def value_set (fuel : Nat) (st : PState) (v : Val) : R := run fuel st (.value_set v)

/-- `_handle_down`: write `"0"` into an empty focused buffer, else decrement its
text as an int; `int()` failure records the validation error and changes nothing. -/
def handle_down (fuel : Nat) (st : PState) : R :=
  let b := focus_buffer st
  if b.text = [] then run fuel st (.setText st.focus (chars "0"))
  else
    match pyInt b.text with
    | some n => run fuel st (.setText st.focus (intChars (n - 1)))
    | none => .ok (setErrorS st)

/-- `_handle_up`: as `_handle_down` with increment. -/
def handle_up (fuel : Nat) (st : PState) : R :=
  let b := focus_buffer st
  if b.text = [] then run fuel st (.setText st.focus (chars "0"))
  else
    match pyInt b.text with
    | some n => run fuel st (.setText st.focus (intChars (n + 1)))
    | none => .ok (setErrorS st)

/-- `_handle_left`: at offset 0 of the fractional buffer switch focus to the
whole window, else move the focused cursor one left.  (The focus setter's call
into the render layout is outside the modelled state.) -/
def handle_left (st : PState) : PState :=
  if st.focus = .integral ∧ (focus_buffer st).cursor = 0 then { st with focus := .whole }
  else cursor_set st st.focus ((focus_buffer st).cursor - 1 : Int)

/-- `_handle_right`: at end of the whole buffer's text in float mode switch focus
to the fractional window, else move the focused cursor one right. -/
def handle_right (st : PState) : PState :=
  if st.focus = .whole ∧ (focus_buffer st).cursor = (focus_buffer st).text.length
      ∧ st.float = true then
    { st with focus := .integral }
  else cursor_set st st.focus ((focus_buffer st).cursor + 1 : Int)

/-- `_handle_focus`: toggle the focused region; a no-op in int mode. -/
def handle_focus (st : PState) : PState :=
  if st.float = false then st
  else { st with focus := if st.focus = .whole then .integral else .whole }

/-- A Python value as the constructor's `default` argument may resolve to. -/
inductive PyVal where
  | int (n : Int)
  | flt (d : Decimal)
  | str (s : List Char)
  | pyNone
deriving Repr, DecidableEq

/-- Errors the constructor fragment can raise: `InvalidArgument` (InquirerPy's
invalid-configuration error) or Python's own conversion errors. -/
inductive PyErr where
  | invalidArgument
  | valueError
  | typeError
deriving Repr, DecidableEq

/-- Python builtin `float(x)` on the default-value shapes. -/
def pyFloatFn : PyVal → Except PyErr Decimal
  | .int n => .ok ⟨decide (n < 0), n.natAbs, 0⟩
  | .flt d => .ok d
  | .str s => match pyFloat s with | some d => .ok d | none => .error .valueError
  | .pyNone => .error .typeError

/-- The default-validation fragment of `NumberPrompt.__init__` (number.py lines
102-113), after any callable default has been resolved: in float mode the
default is first coerced with `float(...)`, then checked with
`isinstance(default, float)` (always true after a successful coercion); in int
mode it is checked with `isinstance(default, int)` and `InvalidArgument` is
raised on mismatch. -/
def initDefault (float_allowed : Bool) (d : PyVal) : Except PyErr PyVal :=
  if float_allowed then
    match pyFloatFn d with
    | .error e => .error e
    | .ok x => .ok (.flt x)
  else
    match d with
    | .int n => .ok (.int n)
    | _ => .error .invalidArgument

/-- Is a resolved default an int? -/
def PyVal.isInt : PyVal → Bool
  | .int _ => true
  | _ => false

/-- Did the constructor fragment raise `InvalidArgument`? -/
def raisesInvalid : Except PyErr PyVal → Bool
  | .error .invalidArgument => true
  | _ => false

/-- Did an operation end in an uncaught exception? -/
def R.isCrash : R → Bool
  | .crash _ => true
  | _ => false

/-- The navigation actions of the focus controller. -/
inductive NavAct where
  | left
  | right
  | focus
deriving Repr, DecidableEq

/-- Apply one navigation action. -/
def navStep (st : PState) : NavAct → PState
  | .left => handle_left st
  | .right => handle_right st
  | .focus => handle_focus st

/-- Apply a sequence of navigation actions. -/
def navRun (st : PState) (acts : List NavAct) : PState := acts.foldl navStep st

/-- The spec's cursor invariant for one buffer: the cursor stays inside the
text, and never rests at offset 0 in front of a leading `-`. -/
def BufInv (b : EditBuffer) : Prop :=
  b.cursor ≤ b.text.length ∧ (startsDash b.text = true → 1 ≤ b.cursor)

/-- The cursor invariant for both buffers. -/
def NavInv (st : PState) : Prop := BufInv st.whole ∧ BufInv st.integral

instance (b : EditBuffer) : Decidable (BufInv b) := by unfold BufInv; infer_instance

instance (st : PState) : Decidable (NavInv st) := by unfold NavInv; infer_instance

/-- Scenario state of claim C2: integer mode, `min=0`, `max=100`, value 0 (the
prompt's post-render state with those settings). -/
def c2Before : PState :=
  { float := false, min? := some (.i 0), max? := some (.i 100), dflt := .i 0,
    endingZero := false, whole := ⟨chars "0", 0⟩, integral := ⟨chars "0", 0⟩,
    focus := .whole, err? := none, wholeWidth := 2, integralWidth := 2 }

/-- Scenario state of claim C10: float mode, default `0.0`, both buffers `"0"`,
focus on the fractional buffer. -/
def c10Before : PState :=
  { float := true, min? := none, max? := none, dflt := .f ⟨false, 0, 0⟩,
    endingZero := false, whole := ⟨chars "0", 0⟩, integral := ⟨chars "0", 0⟩,
    focus := .integral, err? := none, wholeWidth := 2, integralWidth := 2 }

/-- State after the C10 scenario: default written back, error recorded. -/
def c10After : PState :=
  { c10Before with err? := some (chars "Remove any non-integer value") }

/-- Counterexample state for C8: float mode with fractional text `"-10"` —
the combined text `"0.-10"` does not parse. -/
def c8State : PState :=
  { float := true, min? := none, max? := none, dflt := .f ⟨false, 0, 0⟩,
    endingZero := false, whole := ⟨chars "0", 0⟩, integral := ⟨chars "-10", 0⟩,
    focus := .integral, err? := none, wholeWidth := 2, integralWidth := 4 }

/-- Counterexample state for C3: integer mode with whole text `"-"`. -/
def c3State : PState :=
  { float := false, min? := none, max? := none, dflt := .i 0,
    endingZero := false, whole := ⟨chars "-", 1⟩, integral := ⟨chars "0", 0⟩,
    focus := .whole, err? := none, wholeWidth := 2, integralWidth := 2 }

/-- State for the C4 counterexample: float mode, no bounds, default `0.0`. -/
def c4State : PState :=
  { float := true, min? := none, max? := none, dflt := .f ⟨false, 0, 0⟩,
    endingZero := false, whole := ⟨chars "0", 0⟩, integral := ⟨chars "0", 0⟩,
    focus := .whole, err? := none, wholeWidth := 2, integralWidth := 2 }

/-- Witness state for C6's right-crossing clause: float mode, whole window
focused, cursor at end of text `"12"`. -/
def c6Right : PState :=
  { float := true, min? := none, max? := none, dflt := .f ⟨false, 0, 0⟩,
    endingZero := false, whole := ⟨chars "12", 2⟩, integral := ⟨chars "34", 1⟩,
    focus := .whole, err? := none, wholeWidth := 3, integralWidth := 3 }

/-- Witness state for C6's left-crossing clause: fractional window focused,
cursor at 0. -/
def c6Left : PState :=
  { c6Right with focus := .integral, integral := ⟨chars "34", 0⟩ }

/-- Witness state for C6's interior moves: whole window focused, cursor 1 in
text `"12"`. -/
def c6Mid : PState :=
  { c6Right with whole := ⟨chars "12", 1⟩ }

/-- Witness state for C5: float mode with a negative whole part, cursor on its
sign boundary. -/
def c5State : PState :=
  { float := true, min? := none, max? := none, dflt := .f ⟨false, 0, 0⟩,
    endingZero := false, whole := ⟨chars "-12", 1⟩, integral := ⟨chars "5", 1⟩,
    focus := .whole, err? := none, wholeWidth := 4, integralWidth := 2 }


/-- The fields of the prompt configuration that the value setter consults. -/
def sameCfg (a b : PState) : Prop :=
  b.float = a.float ∧ b.min? = a.min? ∧ b.max? = a.max? ∧ b.dflt = a.dflt

/-- The numeric value Python reads from a digit-character string. -/
def rdv (cs : List Char) : Nat := valLE ((cs.map digitVal).reverse)

/-- The integer part (`mant / 10^exp`) before the decimal point. -/
def decIpnat (d : Decimal) : Nat := d.mant / 10 ^ d.exp

/-- Counterexample state for C1: float mode with both bounds configured,
`min=0.0`, `max=1.0`. -/
def c1State : PState :=
  { float := true, min? := some (.f ⟨false, 0, 0⟩), max? := some (.f ⟨false, 1, 0⟩),
    dflt := .f ⟨false, 0, 0⟩, endingZero := false, whole := ⟨chars "0", 0⟩,
    integral := ⟨chars "0", 0⟩, focus := .whole, err? := none,
    wholeWidth := 2, integralWidth := 2 }

/-- Witness state for C1's integer-mode round trip: bounds `[0, 10]`. -/
def c1IntState : PState :=
  { float := false, min? := some (.i 0), max? := some (.i 10), dflt := .i 0,
    endingZero := false, whole := ⟨chars "5", 0⟩, integral := ⟨chars "0", 0⟩,
    focus := .whole, err? := none, wholeWidth := 2, integralWidth := 2 }

/-- Witness state for C1's float-mode round trip: bounds `[0.0, 2.0]`,
fractional buffer `"25"`, flag consistently unset. -/
def c1FloatState : PState :=
  { float := true, min? := some (.f ⟨false, 0, 0⟩), max? := some (.f ⟨false, 2, 0⟩),
    dflt := .f ⟨false, 0, 0⟩, endingZero := false, whole := ⟨chars "0", 0⟩,
    integral := ⟨chars "25", 0⟩, focus := .whole, err? := none,
    wholeWidth := 2, integralWidth := 3 }

/-- Witness state for C7: float mode, fractional buffer `"50"` (the `1.50`
form), trailing-zero flag set consistently with it. -/
def c7State : PState :=
  { float := true, min? := none, max? := none, dflt := .f ⟨false, 0, 0⟩,
    endingZero := true, whole := ⟨chars "1", 0⟩, integral := ⟨chars "50", 0⟩,
    focus := .whole, err? := none, wholeWidth := 2, integralWidth := 3 }

/-- C2 counterexample: in the C2 scenario (integer mode, `min=0`, `max=100`,
value 0) a single `down` keypress does *not* leave `-1` in the buffer until the
next read: the synchronous text-change callback has already run
`self.value = self.value`, whose setter clamps, so after the keypress the whole
buffer holds `"0"` — and no validation error is set. -/
theorem c2_counterexample :
    handle_down 20 c2Before = .ok c2Before
      ∧ c2Before.whole.text ≠ chars "-1"
      ∧ c2Before.err? = none := by
  decide

/-- C2 amended: pressing `down` writes `"-1"`, but the synchronous text-change
callback immediately reads the value back and writes it through the setter,
which clamps to `min = 0`; after the keypress the buffer again holds `"0"`, the
next read returns 0, and no validation error was set (clamping happens inside
the setter invoked by the callback, not at the next read). -/
theorem c2_amended :
    handle_down 20 c2Before = .ok c2Before
      ∧ c2Before.whole.text = chars "0"
      ∧ c2Before.err? = none
      ∧ (value_get c2Before).1 = .i 0 := by
  decide

/-- C10: in float mode (default `0.0`), pressing `down` with the fractional
buffer focused and holding `"0"` writes `"-1"` into it as a standalone int; the
synchronous text-change callback reads the combined text `"0.-1"`, which does
not parse, records the validation error, and writes the default back into both
buffers: one fractional decrement below zero resets the prompt to its default
with the error message set. -/
theorem c10_fractional_decrement_resets :
    pyFloat (chars "0.-1") = none
      ∧ handle_down 20 c10Before = .ok c10After
      ∧ c10After.whole.text = chars "0"
      ∧ c10After.integral.text = chars "0"
      ∧ c10After.err? = some (chars "Remove any non-integer value")
      ∧ (value_get c10After).1 = .f ⟨false, 0, 0⟩ := by
  decide

/-- C8 counterexample: a value read that *fails* to parse still mutates
`_ending_zero` — the getter assigns the flag before `float()` raises.  Here the
fractional text is `"-10"`: the combined `"0.-10"` fails to parse (the error is
recorded and the default returned), yet the flag flips from `false` to `true`. -/
theorem c8_counterexample :
    c8State.endingZero = false
      ∧ (value_get c8State).2.endingZero = true
      ∧ (value_get c8State).2.err? = some (chars "Remove any non-integer value") := by
  decide

/-- C8 amended: `_ending_zero` is initialized once at construction and
thereafter reassigned by *every* float-mode value read — successful or not,
since the getter assigns it before parsing can fail — to whether the fractional
text is longer than one character and ends in `"0"`; integer-mode reads never
touch it. -/
theorem c8_amended (st : PState) :
    (value_get st).2.endingZero = if st.float then ez st.integral.text else st.endingZero := by
  unfold value_get
  rcases hf : st.float with _ | _
  · simp only [hf]
    rcases h : pyInt st.whole.text with _ | n
    · simp [setErrorS]
    · simp
  · simp only [hf]
    rcases h : pyFloat (st.whole.text ++ '.' :: st.integral.text) with _ | d
    · simp [h, setErrorS]
    · simp [h]

/-- C9 counterexample: an `int` default in float mode does *not* raise
`InvalidArgument` — the constructor first coerces it with `float(...)`, so
`NumberPrompt(float_allowed=True, default=5)` starts with default `5.0`,
contradicting the claim that a non-float default in float mode is rejected. -/
theorem c9_counterexample :
    initDefault true (.int 5) = .ok (.flt ⟨false, 5, 0⟩)
      ∧ raisesInvalid (initDefault true (.int 5)) = false :=
  ⟨rfl, rfl⟩

/-- C9 amended: `InvalidArgument` is raised exactly when integer mode is
configured and the resolved default is not an int.  In float mode the default
is first passed through `float(...)` — an int default is silently coerced and
accepted, and a non-coercible default raises the coercion's own
`ValueError`/`TypeError`, never `InvalidArgument`. -/
theorem c9_amended (d : PyVal) :
    raisesInvalid (initDefault false d) = !d.isInt
      ∧ raisesInvalid (initDefault true d) = false := by
  cases d with
  | int n => simp [initDefault, raisesInvalid, PyVal.isInt, pyFloatFn]
  | flt x => simp [initDefault, raisesInvalid, PyVal.isInt, pyFloatFn]
  | str s =>
    refine ⟨by simp [initDefault, raisesInvalid, PyVal.isInt], ?_⟩
    simp only [initDefault, if_pos rfl, pyFloatFn]
    rcases h : pyFloat s with _ | x <;> simp [h, raisesInvalid]
  | pyNone => simp [initDefault, raisesInvalid, PyVal.isInt, pyFloatFn]

/-- C4 counterexample: the `value` setter is not total in float mode — writing
`1e-05` (a float within any wide bounds, whose `str()` is scientific notation
with no decimal point) makes `str(value).split(".")` yield a single part, and
the two-name tuple unpacking raises an uncaught `ValueError`. -/
theorem c4_counterexample :
    floatChars ⟨false, 1, 5⟩ = chars "1e-05"
      ∧ value_set 20 c4State (.f ⟨false, 1, 5⟩) = .crash c4State
      ∧ (value_set 20 c4State (.f ⟨false, 1, 5⟩)).isCrash = true := by
  decide

/-- C3 counterexample: the validation message recorded on a failed read is
`"Remove any non-integer value"` (capital `R`, the literal
`_value_error_message` of number.py line 96), not the claim's quoted
`"remove any non-integer value"`. -/
theorem c3_counterexample :
    (value_get c3State).2.err? = some (chars "Remove any non-integer value")
      ∧ chars "Remove any non-integer value" ≠ chars "remove any non-integer value" := by
  decide

/-- C3 amended: the value getter never raises — in both modes, a text that does
not parse records a validation error with the message
`"Remove any non-integer value"` (capital `R`) and the read returns the
configured default instead of propagating; a parsing text returns its value. -/
theorem c3_amended (st : PState) :
    (st.float = false →
      (∀ n, pyInt st.whole.text = some n → value_get st = (.i n, st)) ∧
      (pyInt st.whole.text = none → value_get st = (st.dflt, setErrorS st))) ∧
    (st.float = true →
      (∀ d, pyFloat (st.whole.text ++ '.' :: st.integral.text) = some d →
        value_get st = (.f d, { st with endingZero := ez st.integral.text })) ∧
      (pyFloat (st.whole.text ++ '.' :: st.integral.text) = none →
        value_get st = (st.dflt, setErrorS { st with endingZero := ez st.integral.text }))) ∧
    (setErrorS st).err? = some (chars "Remove any non-integer value") := by
  refine ⟨fun hf => ?_, fun hf => ?_, rfl⟩
  · constructor
    · intro n hp
      simp [value_get, hf, hp]
    · intro hp
      simp [value_get, hf, hp]
  · constructor
    · intro d hp
      simp [value_get, hf, hp]
    · intro hp
      simp [value_get, hf, hp, setErrorS]

/-- Witness for `c3_amended`: the failing-parse clause at the concrete state
`c3State` (integer mode, whole text `"-"`). -/
theorem c3_amended_witness :
    value_get c3State = (c3State.dflt, setErrorS c3State)
      ∧ (setErrorS c3State).err? = some (chars "Remove any non-integer value") :=
  ⟨((c3_amended c3State).1 rfl).2 (by decide), (c3_amended c3State).2.2⟩

/-- `putBuf` keeps the focus field. -/
theorem putBuf_focus (st : PState) (r : Region) (b : EditBuffer) :
    (putBuf st r b).focus = st.focus := by
  cases r <;> rfl

/-- Reading back the written buffer. -/
theorem bufOf_putBuf_same (st : PState) (r : Region) (b : EditBuffer) :
    bufOf (putBuf st r b) r = b := by
  cases r <;> rfl

/-- Reading any buffer of an updated state. -/
theorem bufOf_putBuf (st : PState) (r r' : Region) (b : EditBuffer) :
    bufOf (putBuf st r b) r' = if r' = r then b else bufOf st r' := by
  cases r <;> cases r' <;> rfl

/-- `focus_buffer` unfolded. -/
theorem focus_buffer_def (st : PState) : focus_buffer st = bufOf st st.focus := rfl

/-- A buffer write at unchanged texts keeps the focused buffer's text. -/
theorem focus_text_putBuf (st : PState) (r : Region) (c : Nat) :
    (focus_buffer (putBuf st r ⟨(bufOf st r).text, c⟩)).text = (focus_buffer st).text := by
  rw [focus_buffer_def, putBuf_focus, bufOf_putBuf, focus_buffer_def]
  by_cases hc : st.focus = r
  · rw [if_pos hc, hc]
  · rw [if_neg hc]

/-- `cursor_set` when the clamped position equals the current one: no change. -/
theorem cursor_set_same (st : PState) (r : Region) (v : Int)
    (h : min v.toNat (bufOf st r).text.length = (bufOf st r).cursor) :
    cursor_set st r v = st := by
  simp [cursor_set, h]

/-- `cursor_set` to a changed clamped position with no `-`-bump applicable:
plain cursor update. -/
theorem cursor_set_plain (st : PState) (r : Region) (v : Int)
    (hne : min v.toNat (bufOf st r).text.length ≠ (bufOf st r).cursor)
    (hnb : min v.toNat (bufOf st r).text.length ≠ 0
      ∨ startsDash (focus_buffer st).text = false) :
    cursor_set st r v = putBuf st r ⟨(bufOf st r).text, min v.toNat (bufOf st r).text.length⟩ := by
  simp only [cursor_set]
  rw [if_neg hne, if_neg]
  simp only [Bool.and_eq_true, decide_eq_true_eq, not_and]
  intro hd hv0
  rcases hnb with h0 | h0
  · exact h0 hv0
  · rw [focus_text_putBuf] at hd
    rw [h0] at hd
    cases hd

/-- C6: the focus transitions of `_handle_left` / `_handle_right`:
`move-right` with the whole window focused, the cursor at end of its text, and
float mode on switches focus to the fractional window (its cursor untouched —
its prior position, not reset to 0); `move-left` with the fractional window
focused and cursor 0 switches focus to the whole window; any other in-range
move adjusts only the active buffer's cursor by one and does not cross
regions. -/
theorem c6_focus_transitions (st : PState) :
    (st.focus = .whole ∧ st.whole.cursor = st.whole.text.length ∧ st.float = true →
      handle_right st = { st with focus := .integral }) ∧
    (st.focus = .integral ∧ st.integral.cursor = 0 →
      handle_left st = { st with focus := .whole }) ∧
    ((focus_buffer st).cursor < (focus_buffer st).text.length →
      handle_right st =
        putBuf st st.focus ⟨(focus_buffer st).text, (focus_buffer st).cursor + 1⟩) ∧
    (1 ≤ (focus_buffer st).cursor →
      (focus_buffer st).cursor ≤ (focus_buffer st).text.length →
      ¬((focus_buffer st).cursor = 1 ∧ startsDash (focus_buffer st).text = true) →
      handle_left st =
        putBuf st st.focus ⟨(focus_buffer st).text, (focus_buffer st).cursor - 1⟩) := by
  refine ⟨fun h => ?_, fun h => ?_, fun h => ?_, fun h hle h2 => ?_⟩
  · rw [handle_right, if_pos ⟨h.1, by rw [focus_buffer_def, h.1]; exact h.2.1, h.2.2⟩]
  · rw [handle_left, if_pos ⟨h.1, by rw [focus_buffer_def, h.1]; exact h.2⟩]
  · rw [handle_right, if_neg (by rintro ⟨-, h2, -⟩; omega)]
    rw [cursor_set_plain st st.focus _ (by rw [← focus_buffer_def]; omega)
      (.inl (by rw [← focus_buffer_def]; omega))]
    rw [← focus_buffer_def]
    have hm : min (((focus_buffer st).cursor : Int) + 1).toNat (focus_buffer st).text.length
        = (focus_buffer st).cursor + 1 := by omega
    rw [hm]
  · rw [handle_left, if_neg (by
      rintro ⟨h1, h2⟩
      rw [h2] at h
      omega)]
    rw [cursor_set_plain st st.focus _ (by rw [← focus_buffer_def]; omega) ?_]
    · rw [← focus_buffer_def]
      have hm : min (((focus_buffer st).cursor : Int) - 1).toNat (focus_buffer st).text.length
          = (focus_buffer st).cursor - 1 := by omega
      rw [hm]
    · cases hd : startsDash (focus_buffer st).text with
      | false => exact .inr rfl
      | true =>
        refine .inl ?_
        rw [← focus_buffer_def]
        have h1 : (focus_buffer st).cursor ≠ 1 := fun hc => h2 ⟨hc, hd⟩
        omega

/-- Witness for `c6_focus_transitions`: all four clauses at concrete states. -/
theorem c6_focus_transitions_witness :
    handle_right c6Right = { c6Right with focus := .integral }
      ∧ handle_left c6Left = { c6Left with focus := .whole }
      ∧ handle_right c6Mid =
          putBuf c6Mid c6Mid.focus ⟨(focus_buffer c6Mid).text, (focus_buffer c6Mid).cursor + 1⟩
      ∧ handle_left c6Mid =
          putBuf c6Mid c6Mid.focus ⟨(focus_buffer c6Mid).text, (focus_buffer c6Mid).cursor - 1⟩ :=
  ⟨(c6_focus_transitions c6Right).1 (by decide),
   (c6_focus_transitions c6Left).2.1 (by decide),
   (c6_focus_transitions c6Mid).2.2.1 (by decide),
   (c6_focus_transitions c6Mid).2.2.2 (by decide) (by decide) (by decide)⟩

/-- A text that starts with `-` is nonempty. -/
theorem startsDash_len (cs : List Char) (h : startsDash cs = true) : 1 ≤ cs.length := by
  cases cs with
  | nil => cases h
  | cons c rest => simp

/-- `cursor_set` on the focused region preserves the cursor invariant. -/
theorem cursor_set_navinv (st : PState) (v : Int) (h : NavInv st) :
    NavInv (cursor_set st st.focus v) := by
  obtain ⟨⟨hw1, hw2⟩, hi1, hi2⟩ := h
  cases hfo : st.focus with
  | whole =>
    simp only [cursor_set, bufOf, putBuf, focus_buffer, hfo]
    split_ifs with h1 h2
    · exact ⟨⟨hw1, hw2⟩, hi1, hi2⟩
    · rw [Bool.and_eq_true] at h2
      have hlen := startsDash_len st.whole.text h2.1
      refine ⟨⟨?_, fun _ => ?_⟩, hi1, hi2⟩ <;> (dsimp only; omega)
    · rw [Bool.and_eq_true, decide_eq_true_eq] at h2
      push_neg at h2
      refine ⟨⟨?_, fun hd => ?_⟩, hi1, hi2⟩
      · dsimp only
        omega
      · dsimp only at hd ⊢
        have := h2 hd
        omega
  | integral =>
    simp only [cursor_set, bufOf, putBuf, focus_buffer, hfo]
    split_ifs with h1 h2
    · exact ⟨⟨hw1, hw2⟩, hi1, hi2⟩
    · rw [Bool.and_eq_true] at h2
      have hlen := startsDash_len st.integral.text h2.1
      refine ⟨⟨hw1, hw2⟩, ?_, fun _ => ?_⟩ <;> (dsimp only; omega)
    · rw [Bool.and_eq_true, decide_eq_true_eq] at h2
      push_neg at h2
      refine ⟨⟨hw1, hw2⟩, ?_, fun hd => ?_⟩
      · dsimp only
        omega
      · dsimp only at hd ⊢
        have := h2 hd
        omega

/-- One navigation action preserves the cursor invariant. -/
theorem navStep_navinv (st : PState) (a : NavAct) (h : NavInv st) :
    NavInv (navStep st a) := by
  cases a with
  | left =>
    rw [navStep, handle_left]
    split
    · exact h
    · exact cursor_set_navinv st _ h
  | right =>
    rw [navStep, handle_right]
    split
    · exact h
    · exact cursor_set_navinv st _ h
  | focus =>
    rw [navStep, handle_focus]
    split
    · exact h
    · exact h

/-- C5: after any sequence of left/right/focus actions from a state satisfying
the cursor invariant, both buffers — in particular the active one — still
satisfy it: the cursor never exceeds the text length, and never rests below
offset 1 when the text starts with `-`. -/
theorem c5_cursor_invariant (acts : List NavAct) (st : PState) (h : NavInv st) :
    NavInv (navRun st acts) ∧ BufInv (focus_buffer (navRun st acts)) := by
  have main : NavInv (navRun st acts) := by
    induction acts generalizing st with
    | nil => exact h
    | cons a rest ih =>
      rw [navRun, List.foldl_cons]
      exact ih (navStep st a) (navStep_navinv st a h)
  refine ⟨main, ?_⟩
  rw [focus_buffer_def]
  cases hf : (navRun st acts).focus
  · exact main.1
  · exact main.2

/-- Witness for `c5_cursor_invariant`: a left/left/right/focus/right sequence on
a concrete float-mode state with a negative whole part. -/
theorem c5_cursor_invariant_witness :
    NavInv (navRun c5State [.left, .left, .right, .focus, .right])
      ∧ BufInv (focus_buffer (navRun c5State [.left, .left, .right, .focus, .right])) :=
  c5_cursor_invariant [.left, .left, .right, .focus, .right] c5State (by decide)

/-- `putBuf` keeps the mode flag. -/
theorem putBuf_float (st : PState) (r : Region) (b : EditBuffer) :
    (putBuf st r b).float = st.float := by
  cases r <;> rfl

/-- `cursor_set` keeps the mode flag. -/
theorem cursor_set_float (st : PState) (r : Region) (v : Int) :
    (cursor_set st r v).float = st.float := by
  simp only [cursor_set]
  split_ifs <;> simp [putBuf_float]

/-- `_set_error` keeps the mode flag. -/
theorem setErrorS_float (st : PState) : (setErrorS st).float = st.float := rfl

/-- The value getter keeps the mode flag. -/
theorem value_get_float (st : PState) : (value_get st).2.float = st.float := by
  rw [value_get]
  split_ifs with h
  · rcases hp : pyInt st.whole.text with _ | n <;> simp [setErrorS]
  · rcases hp : pyFloat (st.whole.text ++ '.' :: st.integral.text) with _ | d <;>
      simp [hp, setErrorS]

/-- A crash-free computation bound to crash-free continuations is crash-free. -/
theorem bind_noCrash (r : R) (k : PState → R) (h1 : r.isCrash = false)
    (h2 : ∀ st, (k st).isCrash = false) : (r.bind k).isCrash = false := by
  cases r with
  | ok st => exact h2 st
  | crash st => exact absurd h1 (by simp [R.isCrash])
  | nofuel => rfl

/-- In integer mode no operation of the re-entrant core can crash — the only
uncaught exception lives in the float-mode branch of the value setter, and the
mode flag is immutable. -/
theorem run_int_noCrash (fuel : Nat) :
    ∀ (st : PState) (op : Op), st.float = false → (run fuel st op).isCrash = false := by
  induction fuel with
  | zero => intro st op _; rfl
  | succ fuel ih =>
    intro st op hf
    cases op with
    | setText r s =>
      simp only [run]
      split
      · split
        · rfl
        · apply ih
          rw [putBuf_float, cursor_set_float]
          exact hf
      · split
        · rfl
        · apply ih
          rw [putBuf_float]
          exact hf
    | onTextChanged r =>
      simp only [run]
      apply bind_noCrash
      · split
        · apply ih
          rw [value_get_float]
          cases r <;> exact hf
        · rfl
      · intro st2
        rfl
    | value_set v =>
      simp only [run]
      rw [if_pos hf]
      exact ih st _ hf

/-- C4 amended: in integer mode no operation of the numeric core can crash the
host process (the value setter is total there), and every numeric parse failure
is caught and converted to the validation-message path — in the getter
(returning the default) and in the up/down handlers (leaving the text
unchanged).  In float mode the setter is *not* total (see the counterexample):
a value formatting without a decimal point makes the split unpacking raise. -/
theorem c4_amended (fuel : Nat) (st st' : PState) (v : Val) (op : Op)
    (hf : st.float = false) :
    (value_set fuel st v).isCrash = false
      ∧ (handle_down fuel st).isCrash = false
      ∧ (handle_up fuel st).isCrash = false
      ∧ (run fuel st op).isCrash = false
      ∧ (pyInt (focus_buffer st).text = none → (focus_buffer st).text ≠ [] →
          handle_down fuel st = .ok (setErrorS st) ∧ handle_up fuel st = .ok (setErrorS st))
      ∧ (st'.float = true → pyFloat (st'.whole.text ++ '.' :: st'.integral.text) = none →
          value_get st' = (st'.dflt, setErrorS { st' with endingZero := ez st'.integral.text })) := by
  refine ⟨run_int_noCrash fuel st _ hf, ?_, ?_, run_int_noCrash fuel st op hf, ?_, ?_⟩
  · rw [handle_down]
    split
    · exact run_int_noCrash fuel st _ hf
    · rcases hp : pyInt (focus_buffer st).text with _ | n <;> simp only [hp]
      · rfl
      · exact run_int_noCrash fuel st _ hf
  · rw [handle_up]
    split
    · exact run_int_noCrash fuel st _ hf
    · rcases hp : pyInt (focus_buffer st).text with _ | n <;> simp only [hp]
      · rfl
      · exact run_int_noCrash fuel st _ hf
  · intro hnone hne
    constructor
    · rw [handle_down, if_neg hne, hnone]
    · rw [handle_up, if_neg hne, hnone]
  · intro hf' hp
    rw [value_get, if_neg (by simp [hf'])]
    dsimp only
    rw [hp]

/-- Witness for `c4_amended`: integer-mode totality at the C2 scenario state
and the caught float-mode parse failure at the C8 state. -/
theorem c4_amended_witness :
    (value_set 5 c2Before (.i 7)).isCrash = false
      ∧ (handle_down 5 c2Before).isCrash = false
      ∧ value_get c8State =
          (c8State.dflt, setErrorS { c8State with endingZero := ez c8State.integral.text }) := by
  have h := c4_amended 5 c2Before c8State (.i 7) (.value_set (.i 7)) (by decide)
  exact ⟨h.1, h.2.1, h.2.2.2.2.2 (by decide) (by decide)⟩

/-- `digitsAux` computes the little-endian digits: their value is `n`. -/
theorem valLE_digitsAux (fuel : Nat) :
    ∀ n : Nat, n ≤ fuel → valLE (digitsAux fuel n) = n := by
  induction fuel with
  | zero => intro n h; interval_cases n; rfl
  | succ fuel ih =>
    intro n h
    match n with
    | 0 => rfl
    | n + 1 =>
      rw [digitsAux, valLE, ih ((n + 1) / 10) (by omega)]
      omega

/-- Digits are digits. -/
theorem digitsAux_lt10 (fuel : Nat) :
    ∀ n d : Nat, d ∈ digitsAux fuel n → d < 10 := by
  induction fuel with
  | zero => intro n d h; cases h
  | succ fuel ih =>
    intro n d h
    match n with
    | 0 => cases h
    | n + 1 =>
      rw [digitsAux] at h
      rcases List.mem_cons.mp h with h1 | h1
      · omega
      · exact ih _ _ h1

/-- A positive number has at least one digit. -/
theorem digitsAux_ne_nil (fuel n : Nat) (h1 : 1 ≤ n) (h2 : n ≤ fuel) :
    digitsAux fuel n ≠ [] := by
  match fuel, n with
  | 0, n => omega
  | fuel + 1, 0 => omega
  | fuel + 1, n + 1 => rw [digitsAux]; exact List.cons_ne_nil _ _

theorem valLE_digitsLE (n : Nat) : valLE (digitsLE n) = n := valLE_digitsAux n n le_rfl

theorem digitsLE_lt10 (n d : Nat) (h : d ∈ digitsLE n) : d < 10 := digitsAux_lt10 n n d h

theorem digitsLE_ne_nil (n : Nat) (h : 1 ≤ n) : digitsLE n ≠ [] :=
  digitsAux_ne_nil n n h le_rfl

/-- Value of a concatenation of little-endian digit lists. -/
theorem valLE_append (xs ys : List Nat) :
    valLE (xs ++ ys) = valLE xs + 10 ^ xs.length * valLE ys := by
  induction xs with
  | nil => simp [valLE]
  | cons d ds ih =>
    rw [List.cons_append, valLE, valLE, ih, List.length_cons]
    ring

theorem valLE_replicate_zero (k : Nat) : valLE (List.replicate k 0) = 0 := by
  induction k with
  | zero => rfl
  | succ k ih => rw [List.replicate_succ, valLE, ih]

/-- The character of a digit is an ASCII digit. -/
theorem isDig_digitChar (d : Nat) (h : d < 10) : isDig (digitChar d) = true := by
  interval_cases d <;> decide

/-- Reading back the character of a digit. -/
theorem digitVal_digitChar (d : Nat) (h : d < 10) : digitVal (digitChar d) = d := by
  interval_cases d <;> decide

/-- A digit character is not the minus sign. -/
theorem digitChar_ne_dash (d : Nat) (h : d < 10) : digitChar d ≠ '-' := by
  interval_cases d <;> decide

/-- A digit character is not the plus sign. -/
theorem digitChar_ne_plus (d : Nat) (h : d < 10) : digitChar d ≠ '+' := by
  interval_cases d <;> decide

/-- Mapping to characters and back is the identity on digit lists. -/
theorem map_digitVal_digitChar (ds : List Nat) (h : ∀ d ∈ ds, d < 10) :
    (ds.map digitChar).map digitVal = ds := by
  induction ds with
  | nil => rfl
  | cons d rest ih =>
    rw [List.map_cons, List.map_cons, digitVal_digitChar d (h d (List.mem_cons_self d rest)),
      ih fun x hx => h x (List.mem_cons_of_mem d hx)]

/-- Digit-character lists pass the all-digits test. -/
theorem all_isDig_map_digitChar (ds : List Nat) (h : ∀ d ∈ ds, d < 10) :
    (ds.map digitChar).all isDig = true := by
  rw [List.all_eq_true]
  intro c hc
  rcases List.mem_map.mp hc with ⟨d, hd, rfl⟩
  exact isDig_digitChar d (h d hd)

/-- `readDigits` undoes `natChars`. -/
theorem readDigits_natChars (n : Nat) : readDigits (natChars n) = some n := by
  rcases Nat.eq_zero_or_pos n with rfl | hpos
  · decide
  · have hd10 : ∀ d ∈ digitsLE n, d < 10 := digitsLE_lt10 n
    rw [natChars, if_neg (by omega), readDigits,
      if_neg (by simp [digitsLE_ne_nil n hpos]),
      if_pos (by rw [List.all_reverse]; exact all_isDig_map_digitChar _ hd10)]
    rw [List.map_reverse, map_digitVal_digitChar _ hd10, List.reverse_reverse,
      valLE_digitsLE]

/-- `natChars` is a nonempty string of digit characters. -/
theorem natChars_ne_nil (n : Nat) : natChars n ≠ [] := by
  rw [natChars]
  split
  · exact List.cons_ne_nil _ _
  · next h =>
    intro hc
    rw [List.reverse_eq_nil_iff, List.map_eq_nil] at hc
    exact digitsLE_ne_nil n (by omega) hc

/-- Every character of `natChars` is a digit. -/
theorem natChars_all_isDig (n : Nat) : (natChars n).all isDig = true := by
  rw [natChars]
  split
  · decide
  · rw [List.all_reverse]
    exact all_isDig_map_digitChar _ (digitsLE_lt10 n)

/-- `pyInt` on a nonempty all-digits text reads the digits. -/
theorem pyInt_digits (cs : List Char) (hall : cs.all isDig = true) :
    pyInt cs = (readDigits cs).map fun n => (n : Int) := by
  match cs with
  | [] => rfl
  | c :: rest =>
    have hc : isDig c = true := by
      rw [List.all_cons, Bool.and_eq_true] at hall
      exact hall.1
    have hcd : c ≠ '-' := by intro h; rw [h] at hc; cases hc
    have hcp : c ≠ '+' := by intro h; rw [h] at hc; cases hc
    rw [pyInt.eq_def]
    split
    · next heq => cases heq; exact absurd rfl hcd
    · next heq => cases heq; exact absurd rfl hcp
    · rfl

/-- Python parses back `str(n)` to `n`. -/
theorem pyInt_intChars (n : Int) : pyInt (intChars n) = some n := by
  rw [intChars]
  split
  · next hneg =>
    show (readDigits (natChars n.natAbs)).map (fun m => -(m : Int)) = some n
    rw [readDigits_natChars]
    show some (-(n.natAbs : Int)) = some n
    congr 1
    omega
  · next hpos =>
    rw [pyInt_digits _ (natChars_all_isDig _), readDigits_natChars]
    show some ((n.natAbs : Int)) = some n
    congr 1
    omega

/-- `str(n)` is nonempty. -/
theorem intChars_ne_nil (n : Int) : intChars n ≠ [] := by
  rw [intChars]
  split
  · exact List.cons_ne_nil _ _
  · exact natChars_ne_nil _

/-- `str(n)` is never just the minus sign. -/
theorem intChars_ne_dash (n : Int) : intChars n ≠ ['-'] := by
  rw [intChars]
  split
  · intro h
    exact natChars_ne_nil n.natAbs (List.cons_eq_cons.mp h).2
  · intro h
    have := natChars_all_isDig n.natAbs
    rw [h] at this
    cases this


theorem sameCfg_refl (a : PState) : sameCfg a a := ⟨rfl, rfl, rfl, rfl⟩

theorem sameCfg_trans {a b c : PState} (h1 : sameCfg a b) (h2 : sameCfg b c) : sameCfg a c := by
  obtain ⟨x1, x2, x3, x4⟩ := h1
  obtain ⟨y1, y2, y3, y4⟩ := h2
  exact ⟨y1.trans x1, y2.trans x2, y3.trans x3, y4.trans x4⟩

theorem sameCfg_putBuf (a : PState) (r : Region) (b : EditBuffer) :
    sameCfg a (putBuf a r b) := by
  cases r <;> exact ⟨rfl, rfl, rfl, rfl⟩

theorem sameCfg_cursor_set (a : PState) (r : Region) (v : Int) :
    sameCfg a (cursor_set a r v) := by
  simp only [cursor_set]
  split_ifs
  · exact sameCfg_refl a
  · exact sameCfg_trans (sameCfg_putBuf _ _ _) (sameCfg_putBuf _ _ _)
  · exact sameCfg_putBuf _ _ _

theorem sameCfg_setErrorS (a : PState) : sameCfg a (setErrorS a) := ⟨rfl, rfl, rfl, rfl⟩

theorem sameCfg_value_get (a : PState) : sameCfg a (value_get a).2 := by
  rw [value_get]
  split_ifs
  · rcases h : pyInt a.whole.text with _ | n
    · exact sameCfg_setErrorS a
    · exact sameCfg_refl a
  · dsimp only
    rcases h : pyFloat (a.whole.text ++ '.' :: a.integral.text) with _ | d
    · exact sameCfg_trans ⟨rfl, rfl, rfl, rfl⟩ (sameCfg_setErrorS _)
    · exact ⟨rfl, rfl, rfl, rfl⟩

/-- Clamping only reads the configuration fields. -/
theorem clampVal_congr {a b : PState} (h : sameCfg a b) (v : Val) :
    clampVal b v = clampVal a v := by
  obtain ⟨h1, h2, h3, h4⟩ := h
  rw [clampVal, clampVal, h1, h2, h3]

/-- Texts are untouched by cursor moves. -/
theorem cursor_set_text (st : PState) (r : Region) (v : Int) (r' : Region) :
    (bufOf (cursor_set st r v) r').text = (bufOf st r').text := by
  cases r <;> cases r' <;> (simp only [cursor_set]; split_ifs <;> simp [bufOf, putBuf])

/-- One-step unfolding of the text setter. -/
theorem run_succ_setText (fuel : Nat) (st : PState) (r : Region) (s : List Char) :
    run (fuel + 1) st (.setText r s) =
      (let b := bufOf st r
       let st1 := if s.length < b.cursor then cursor_set st r (s.length : Int) else st
       let b1 := bufOf st1 r
       if b1.text = s then .ok st1
       else run fuel (putBuf st1 r { b1 with text := s }) (.onTextChanged r)) := rfl

/-- One-step unfolding of the text-changed callback. -/
theorem run_succ_onTextChanged (fuel : Nat) (st : PState) (r : Region) :
    run (fuel + 1) st (.onTextChanged r) =
      (let st0 :=
        match r with
        | .whole => { st with wholeWidth := (bufOf st r).text.length + 1 }
        | .integral => { st with integralWidth := (bufOf st r).text.length + 1 }
       let b := bufOf st0 r
       let step1 : R :=
        if b.text ≠ [] ∧ b.text ≠ ['-'] then
          let p := value_get st0
          run fuel p.2 (.value_set p.1)
        else .ok st0
       step1.bind fun st2 =>
        let b2 := bufOf st2 r
        .ok (if startsDash b2.text && b2.cursor == 0 then cursor_set st2 r 1 else st2)) := rfl

/-- One-step unfolding of the value setter. -/
theorem run_succ_value_set (fuel : Nat) (st : PState) (v : Val) :
    run (fuel + 1) st (.value_set v) =
      (let v2 := clampVal st v
       if st.float = false then
        run fuel st (.setText .whole (pyStrChars v2))
       else
        match dotSplit (pyStrChars v2) with
        | [w, i] =>
          (run fuel st (.setText .whole w)).bind fun st1 =>
            run fuel st1 (.setText .integral (if st1.endingZero then i ++ ['0'] else i))
        | _ => .crash st) := rfl

/-- After `cursor_set` toward a positive position `v`, the cursor is at most `v`. -/
theorem cursor_set_cursor_le (st : PState) (r : Region) (v : Int) (h1 : 1 ≤ v.toNat) :
    (bufOf (cursor_set st r v) r).cursor ≤ v.toNat := by
  simp only [cursor_set]
  split_ifs with h2 h3
  · omega
  · rw [bufOf_putBuf_same]
    dsimp only
    rw [bufOf_putBuf_same]
    omega
  · rw [bufOf_putBuf_same]
    dsimp only
    omega

/-- Symbolic execution of `setText` on the whole buffer with `str(v)` in
integer mode, when clamping `v` is the identity: the synchronous callback
cascade stabilizes with the whole buffer holding `str(v)`. -/
theorem setText_int_spec (fuel : Nat) (u : PState) (v : Int)
    (hf : u.float = false) (hcl : clampVal u (.i v) = .i v) :
    ∃ u', run (fuel + 4) u (.setText .whole (intChars v)) = .ok u'
      ∧ u'.whole.text = intChars v ∧ sameCfg u u' := by
  have hs1 : 1 ≤ (intChars v).length := by
    rcases h : intChars v with _ | ⟨c, rest⟩
    · exact absurd h (intChars_ne_nil v)
    · simp
  show ∃ u', run ((fuel + 3) + 1) u (.setText .whole (intChars v)) = .ok u' ∧ _
  rw [run_succ_setText]
  dsimp only
  set st1 := if (intChars v).length < (bufOf u .whole).cursor
    then cursor_set u .whole ((intChars v).length : Int) else u with hst1
  have hcfg1 : sameCfg u st1 := by
    rw [hst1]
    split_ifs
    · exact sameCfg_cursor_set u .whole _
    · exact sameCfg_refl u
  have hcur1 : (bufOf st1 .whole).cursor ≤ (intChars v).length := by
    rw [hst1]
    split_ifs with hc
    · have := cursor_set_cursor_le u .whole ((intChars v).length : Int) (by omega)
      omega
    · omega
  by_cases ht : (bufOf st1 .whole).text = intChars v
  · rw [if_pos ht]
    exact ⟨st1, rfl, ht, hcfg1⟩
  · rw [if_neg ht]
    set u2 := putBuf st1 .whole { text := intChars v, cursor := (bufOf st1 .whole).cursor }
      with hu2
    have hcfg2 : sameCfg u u2 := sameCfg_trans hcfg1 (sameCfg_putBuf st1 .whole _)
    have hu2text : u2.whole.text = intChars v := rfl
    have hu2cur : u2.whole.cursor ≤ (intChars v).length := hcur1
    show ∃ u', run ((fuel + 2) + 1) u2 (.onTextChanged .whole) = .ok u' ∧ _
    rw [run_succ_onTextChanged]
    dsimp only
    set st0 : PState := { u2 with wholeWidth := (bufOf u2 .whole).text.length + 1 } with hst0
    have hcfg0 : sameCfg u st0 := sameCfg_trans hcfg2 ⟨rfl, rfl, rfl, rfl⟩
    have hf0 : st0.float = false := by rw [hcfg0.1, hf]
    have h0text : st0.whole.text = intChars v := hu2text
    have h0cur : st0.whole.cursor ≤ (intChars v).length := hu2cur
    have hne1 : (bufOf st0 .whole).text ≠ [] := by
      rw [show (bufOf st0 .whole).text = intChars v from h0text]
      exact intChars_ne_nil v
    have hne2 : (bufOf st0 .whole).text ≠ ['-'] := by
      rw [show (bufOf st0 .whole).text = intChars v from h0text]
      exact intChars_ne_dash v
    rw [if_pos ⟨hne1, hne2⟩]
    have hp : pyInt st0.whole.text = some v := by rw [h0text]; exact pyInt_intChars v
    have hg : value_get st0 = (.i v, st0) := by
      rw [value_get, if_pos hf0, hp]
    rw [hg]
    dsimp only
    rw [show fuel + 2 = (fuel + 1) + 1 from rfl, run_succ_value_set]
    dsimp only
    rw [clampVal_congr hcfg0, hcl, if_pos hf0]
    rw [show pyStrChars (.i v) = intChars v from rfl, run_succ_setText]
    dsimp only
    rw [if_neg (show ¬((intChars v).length < (bufOf st0 Region.whole).cursor) by
      have h5 : (bufOf st0 Region.whole).cursor = st0.whole.cursor := rfl
      omega)]
    rw [if_pos (show (bufOf st0 Region.whole).text = intChars v from h0text)]
    simp only [R.bind]
    by_cases hb : (startsDash (bufOf st0 .whole).text && (bufOf st0 .whole).cursor == 0) = true
    · rw [if_pos hb]
      refine ⟨cursor_set st0 .whole 1, rfl, ?_, sameCfg_trans hcfg0 (sameCfg_cursor_set _ _ _)⟩
      have := cursor_set_text st0 .whole 1 .whole
      rw [show (bufOf (cursor_set st0 .whole 1) .whole).text
        = (cursor_set st0 .whole 1).whole.text from rfl] at this
      rw [this]
      exact h0text
    · rw [if_neg hb]
      exact ⟨st0, rfl, h0text, hcfg0⟩

/-- Integer-mode clamping with in-range bounds is the identity. -/
theorem clampVal_int_id (st : PState) (mB MB v : Int) (hf : st.float = false)
    (hmin : st.min? = some (.i mB)) (hmax : st.max? = some (.i MB))
    (h1 : mB ≤ v) (h2 : v ≤ MB) : clampVal st (.i v) = .i v := by
  rw [clampVal, hmin, hmax]
  dsimp only
  rw [hf]
  simp only [Bool.false_eq_true, if_false, pymax, pymin, valLt, decide_eq_true_eq]
  rw [if_neg (show ¬v < mB by omega)]
  dsimp only
  simp only [decide_eq_true_eq]
  rw [if_neg (show ¬MB < v by omega)]

/-- The value setter in integer mode with identity clamp: writes `str(v)` and a
subsequent read returns `v` without further state change. -/
theorem value_set_int_spec (fuel : Nat) (st : PState) (v : Int)
    (hf : st.float = false) (hcl : clampVal st (.i v) = .i v) :
    ∃ st', value_set (fuel + 5) st (.i v) = .ok st'
      ∧ st'.whole.text = intChars v ∧ sameCfg st st' ∧ value_get st' = (.i v, st') := by
  rw [value_set, show fuel + 5 = (fuel + 4) + 1 from rfl, run_succ_value_set]
  dsimp only
  rw [hcl, if_pos hf, show pyStrChars (.i v) = intChars v from rfl]
  obtain ⟨u', h1, h2, h3⟩ := setText_int_spec fuel st v hf hcl
  refine ⟨u', h1, h2, h3, ?_⟩
  rw [value_get, if_pos (show u'.float = false by rw [h3.1, hf]),
    show u'.whole.text = intChars v from h2, pyInt_intChars]

/-- `digitsAux` does not depend on the fuel once it suffices. -/
theorem digitsAux_fuel (fuel : Nat) :
    ∀ (fuel' n : Nat), n ≤ fuel → n ≤ fuel' → digitsAux fuel n = digitsAux fuel' n := by
  induction fuel with
  | zero =>
    intro fuel' n h _
    interval_cases n
    cases fuel' <;> rfl
  | succ fuel ih =>
    intro fuel' n h h'
    match n, fuel' with
    | 0, 0 => rfl
    | 0, fuel' + 1 => rfl
    | n + 1, fuel' + 1 =>
      rw [digitsAux, digitsAux]
      congr 1
      exact ih fuel' ((n + 1) / 10) (by omega) (by omega)

/-- Dropping one little-endian digit divides by ten. -/
theorem digitsLE_tail (m : Nat) : (digitsLE m).tail = digitsLE (m / 10) := by
  match m with
  | 0 => rfl
  | m + 1 =>
    rw [digitsLE, digitsAux, List.tail_cons, digitsLE]
    exact digitsAux_fuel m ((m + 1) / 10) ((m + 1) / 10) (by omega) le_rfl

/-- Dropping `k` little-endian digits divides by `10^k`. -/
theorem digitsLE_drop (k : Nat) : ∀ m : Nat, (digitsLE m).drop k = digitsLE (m / 10 ^ k) := by
  induction k with
  | zero => intro m; rw [List.drop_zero, pow_zero, Nat.div_one]
  | succ k ih =>
    intro m
    have h1 : List.drop (k + 1) (digitsLE m) = List.drop 1 (List.drop k (digitsLE m)) := by
      rw [List.drop_drop]
    rw [h1, ih m, List.drop_one, digitsLE_tail, Nat.div_div_eq_div_mul, ← pow_succ]

/-- No digits exactly for zero. -/
theorem digitsLE_eq_nil_iff (m : Nat) : digitsLE m = [] ↔ m = 0 := by
  constructor
  · intro h
    by_contra hm
    exact digitsLE_ne_nil m (by omega) h
  · intro h
    rw [h]
    rfl

/-- Digit lists bound their value. -/
theorem valLE_lt (ds : List Nat) (h : ∀ d ∈ ds, d < 10) : valLE ds < 10 ^ ds.length := by
  induction ds with
  | nil => simp [valLE]
  | cons d rest ih =>
    rw [valLE, List.length_cons, pow_succ]
    have hd : d < 10 := h d (List.mem_cons_self d rest)
    have hr := ih fun x hx => h x (List.mem_cons_of_mem d hx)
    omega

/-- The number is smaller than ten to its digit count. -/
theorem digitsLE_lt (m : Nat) : m < 10 ^ (digitsLE m).length := by
  have := valLE_lt (digitsLE m) (digitsLE_lt10 m)
  rw [valLE_digitsLE] at this
  exact this

/-- The first little-endian digit is the last decimal digit. -/
theorem digitsLE_head (m : Nat) (h : 1 ≤ m) : (digitsLE m).head? = some (m % 10) := by
  match m with
  | m + 1 => rw [digitsLE, digitsAux, List.head?_cons]


/-- An ASCII digit's value is below ten. -/
theorem digitVal_lt_of_isDig (c : Char) (h : isDig c = true) : digitVal c < 10 := by
  rw [isDig, Bool.and_eq_true, decide_eq_true_eq, decide_eq_true_eq] at h
  rw [digitVal]
  omega

/-- An ASCII digit is not the decimal point. -/
theorem isDig_ne_dot (c : Char) (h : isDig c = true) : c ≠ '.' := by
  intro hc
  rw [hc] at h
  cases h

/-- An all-digits string contains no decimal point. -/
theorem no_dot_of_all_isDig (cs : List Char) (h : cs.all isDig = true) : '.' ∉ cs := by
  intro hmem
  rw [List.all_eq_true] at h
  exact isDig_ne_dot '.' (h '.' hmem) rfl

/-- Value of concatenated digit strings. -/
theorem rdv_append (a b : List Char) :
    rdv (a ++ b) = rdv b + 10 ^ b.length * rdv a := by
  rw [rdv, List.map_append, List.reverse_append, valLE_append, rdv, rdv,
    List.length_reverse, List.length_map]

/-- Reading back a formatted digit list. -/
theorem rdv_format (ds : List Nat) (h : ∀ d ∈ ds, d < 10) :
    rdv ((ds.map digitChar).reverse) = valLE ds := by
  rw [rdv, List.map_reverse, map_digitVal_digitChar ds h, List.reverse_reverse]

/-- Digit strings read below ten to their length. -/
theorem rdv_lt (cs : List Char) (h : cs.all isDig = true) : rdv cs < 10 ^ cs.length := by
  rw [rdv]
  have := valLE_lt ((cs.map digitVal).reverse) (by
    intro d hd
    rw [List.mem_reverse, List.mem_map] at hd
    rcases hd with ⟨c, hc, rfl⟩
    rw [List.all_eq_true] at h
    exact digitVal_lt_of_isDig c (h c hc))
  rw [List.length_reverse, List.length_map] at this
  exact this

/-- Appending a zero digit multiplies the read value by ten. -/
theorem rdv_concat_zero (t : List Char) : rdv (t ++ ['0']) = 10 * rdv t := by
  rw [rdv_append]
  have h1 : rdv ['0'] = 0 := rfl
  have h2 : (10 : Nat) ^ (['0'] : List Char).length = 10 := rfl
  rw [h1, h2]
  omega

/-- Splitting a dot-free string. -/
theorem dotSplit_no_dot (cs : List Char) (h : '.' ∉ cs) : dotSplit cs = [cs] := by
  induction cs with
  | nil => rfl
  | cons c rest ih =>
    have hc : c ≠ '.' := fun hcc => h (hcc ▸ List.mem_cons_self c rest)
    have hrest : '.' ∉ rest := fun hm => h (List.mem_cons_of_mem c hm)
    rw [dotSplit.eq_def]
    split
    · next heq => cases heq
    · next heq => exact absurd (List.cons_eq_cons.mp heq).1 hc
    · next c' cs' heq =>
      obtain ⟨rfl, rfl⟩ := List.cons_eq_cons.mp heq
      rw [ih hrest]

/-- Splitting around the single separating dot. -/
theorem dotSplit_append (a b : List Char) (h : '.' ∉ a) :
    dotSplit (a ++ '.' :: b) = a :: dotSplit b := by
  induction a with
  | nil => rfl
  | cons c rest ih =>
    have hc : c ≠ '.' := fun hcc => h (hcc ▸ List.mem_cons_self c rest)
    have hrest : '.' ∉ rest := fun hm => h (List.mem_cons_of_mem c hm)
    rw [List.cons_append, dotSplit.eq_def]
    split
    · next heq => cases heq
    · next heq => exact absurd (List.cons_eq_cons.mp heq).1 hc
    · next c' cs' heq =>
      obtain ⟨rfl, rfl⟩ := List.cons_eq_cons.mp heq
      rw [ih hrest]

/-- Length of the padded digit list. -/
theorem padTo_length (l : Nat) (ds : List Nat) :
    (padTo l ds).length = max ds.length l := by
  rw [padTo, List.length_append, List.length_replicate]
  omega

/-- Every entry of the padded digit list of `m` is a digit. -/
theorem padTo_digits (l m : Nat) :
    ∀ d ∈ padTo l (digitsLE m), d < 10 := by
  intro d hd
  rw [padTo, List.mem_append] at hd
  rcases hd with h | h
  · exact digitsLE_lt10 m d h
  · rw [List.eq_of_mem_replicate h]
    omega

/-- Value of the padded digit list. -/
theorem valLE_padTo (l m : Nat) : valLE (padTo l (digitsLE m)) = m := by
  rw [padTo, valLE_append, valLE_replicate_zero, valLE_digitsLE]
  omega

/-- The fractional part of the fixed rendering has exactly `e` digits. -/
theorem fixedParts_fst_length (m e : Nat) : (fixedParts m e).1.length = e := by
  rw [fixedParts]
  dsimp only
  rw [List.length_take, padTo_length]
  omega

/-- Fraction and integer parts reassemble to the padded digits. -/
theorem fixedParts_append (m e : Nat) :
    (fixedParts m e).1 ++ (fixedParts m e).2 = padTo (e + 1) (digitsLE m) := by
  rw [fixedParts]
  dsimp only
  exact List.take_append_drop e _

/-- The integer part of the fixed rendering: the digits of `m / 10^e` (a single
zero digit when that quotient vanishes). -/
theorem fixedParts_snd (m e : Nat) :
    (fixedParts m e).2 = if m / 10 ^ e = 0 then [0] else digitsLE (m / 10 ^ e) := by
  rw [fixedParts]
  dsimp only
  by_cases hlen : (digitsLE m).length ≤ e
  · have hq : m / 10 ^ e = 0 := by
      have h1 := digitsLE_lt m
      have h2 : (10 : Nat) ^ (digitsLE m).length ≤ 10 ^ e :=
        Nat.pow_le_pow_right (by omega) hlen
      exact Nat.div_eq_of_lt (by omega)
    rw [if_pos hq, padTo]
    rw [show e = (digitsLE m).length + (e - (digitsLE m).length) from by omega,
      List.drop_append]
    rw [List.drop_replicate]
    rw [show (digitsLE m).length + (e - (digitsLE m).length) + 1 - (digitsLE m).length
      - (e - (digitsLE m).length) = 1 from by omega]
    rfl
  · have hrep : (e + 1) - (digitsLE m).length = 0 := by omega
    rw [padTo, hrep, List.replicate_zero, List.append_nil, digitsLE_drop]
    have hlen2 : 1 ≤ (digitsLE (m / 10 ^ e)).length := by
      rw [← digitsLE_drop, List.length_drop]
      omega
    rw [if_neg (by
      intro h0
      rw [h0] at hlen2
      cases hlen2)]

/-- Normalization keeps the sign. -/
theorem decNorm_sign (s : Bool) : ∀ m e : Nat, (decNorm s m e).sign = s := by
  intro m e
  induction e generalizing m with
  | zero => rfl
  | succ e ih =>
    rw [decNorm]
    split
    · exact ih (m / 10)
    · rfl

/-- Normalization normalizes. -/
theorem decNorm_isNorm (s : Bool) : ∀ (e m : Nat), (decNorm s m e).IsNorm := by
  intro e
  induction e with
  | zero => intro m; exact .inl rfl
  | succ e ih =>
    intro m
    rw [decNorm]
    split
    · exact ih (m / 10)
    · next h => exact .inr h

/-- Normalizing a canonical decimal is the identity. -/
theorem decNorm_self (d : Decimal) (h : d.IsNorm) : decNorm d.sign d.mant d.exp = d := by
  obtain ⟨s, m, e⟩ := d
  cases e with
  | zero => rfl
  | succ e =>
    rcases h with h | h
    · cases h
    · rw [decNorm, if_neg h]

/-- Tenfold mantissa and one more fractional digit normalize alike. -/
theorem decNorm_mul10 (s : Bool) (m e : Nat) :
    decNorm s (m * 10) (e + 1) = decNorm s m e := by
  rw [decNorm, if_pos (Nat.mul_mod_left m 10), Nat.mul_div_cancel m (by omega)]


/-- Normalization keeps the integer part. -/
theorem decIpnat_decNorm (s : Bool) : ∀ (e m : Nat), decIpnat (decNorm s m e) = m / 10 ^ e := by
  intro e
  induction e with
  | zero => intro m; rfl
  | succ e ih =>
    intro m
    rw [decNorm]
    split
    · next h =>
      rw [ih (m / 10), Nat.div_div_eq_div_mul]
      congr 1
      ring
    · rw [decIpnat]

/-- Integer-part characters are digits. -/
theorem ipChars_all_isDig (x : Decimal) : (ipChars x).all isDig = true := by
  rw [ipChars, List.all_reverse]
  apply all_isDig_map_digitChar
  intro d hd
  apply padTo_digits (fixedE x + 1) (fixedM x) d
  rw [fixedParts] at hd
  exact List.mem_of_mem_drop hd

/-- Fractional-part characters are digits. -/
theorem fpChars_all_isDig (x : Decimal) : (fpChars x).all isDig = true := by
  rw [fpChars, List.all_reverse]
  apply all_isDig_map_digitChar
  intro d hd
  apply padTo_digits (fixedE x + 1) (fixedM x) d
  rw [fixedParts] at hd
  exact List.mem_of_mem_take hd

/-- The integer part has at least one character. -/
theorem ipChars_ne_nil (x : Decimal) : ipChars x ≠ [] := by
  rw [ipChars]
  intro h
  rw [List.reverse_eq_nil_iff, List.map_eq_nil_iff] at h
  have := congrArg List.length h
  rw [fixedParts] at this
  dsimp only at this
  rw [List.length_drop, padTo_length, List.length_nil] at this
  omega

/-- The fractional part has exactly `fixedE` characters. -/
theorem fpChars_length (x : Decimal) : (fpChars x).length = fixedE x := by
  rw [fpChars, List.length_reverse, List.length_map, fixedParts_fst_length]

/-- Reading the concatenated rendering gives the adjusted mantissa. -/
theorem rdv_ip_fp (x : Decimal) :
    rdv (ipChars x ++ fpChars x) = fixedM x := by
  rw [ipChars, fpChars, ← List.reverse_append, ← List.map_append, rdv_format]
  · rw [fixedParts_append, valLE_padTo]
  · intro d hd
    rw [fixedParts_append] at hd
    exact padTo_digits _ _ d hd

/-- Reading just the integer part gives the digits before the point. -/
theorem rdv_ipChars (x : Decimal) : rdv (ipChars x) = decIpnat x := by
  rw [ipChars, rdv_format _ (fun d hd => padTo_digits (fixedE x + 1) (fixedM x) d
    (by rw [fixedParts] at hd; exact List.mem_of_mem_drop hd))]
  set a := valLE ((fixedParts (fixedM x) (fixedE x)).1) with ha
  set b := valLE ((fixedParts (fixedM x) (fixedE x)).2) with hb
  have hsplit : a + 10 ^ fixedE x * b = fixedM x := by
    have := valLE_append (fixedParts (fixedM x) (fixedE x)).1 (fixedParts (fixedM x) (fixedE x)).2
    rw [fixedParts_append, valLE_padTo, fixedParts_fst_length] at this
    rw [ha, hb]
    omega
  have hlt : a < 10 ^ fixedE x := by
    rw [ha]
    have := valLE_lt (fixedParts (fixedM x) (fixedE x)).1 (fun d hd =>
      padTo_digits (fixedE x + 1) (fixedM x) d
        (by rw [fixedParts] at hd; exact List.mem_of_mem_take hd))
    rw [fixedParts_fst_length] at this
    exact this
  have hdiv : fixedM x / 10 ^ fixedE x = b := by
    rw [← hsplit, Nat.add_mul_div_left _ _ (Nat.pos_pow_of_pos _ (by omega)),
      Nat.div_eq_of_lt hlt]
    omega
  have hip : decIpnat x = fixedM x / 10 ^ fixedE x := by
    rw [decIpnat, fixedM, fixedE]
    split_ifs with h0
    · rw [h0, pow_one, pow_zero, Nat.mul_div_cancel _ (show 0 < 10 by omega), Nat.div_one]
    · rfl
  rw [hip, hdiv]

/-- What Python's `float()` reads from a sign, integer digits, a dot and
fraction digits. -/
theorem pyFloat_parts (sgn : Bool) (ip fp : List Char)
    (hip : ip.all isDig = true) (hfp : fp.all isDig = true) (hne : ip ≠ []) :
    pyFloat ((if sgn then ['-'] else []) ++ (ip ++ '.' :: fp))
      = some (decNorm sgn (rdv (ip ++ fp)) fp.length) := by
  have hsplit : dotSplit (ip ++ '.' :: fp) = [ip, fp] := by
    rw [dotSplit_append ip fp (no_dot_of_all_isDig ip hip),
      dotSplit_no_dot fp (no_dot_of_all_isDig fp hfp)]
  have hcond : ip ++ fp ≠ [] ∧ (ip ++ fp).all isDig = true := by
    constructor
    · intro h
      exact hne (List.append_eq_nil.mp h).1
    · rw [List.all_append, hip, hfp]
      rfl
  cases sgn with
  | true =>
    show pyFloat ('-' :: (ip ++ '.' :: fp)) = _
    rw [pyFloat]
    dsimp only
    rw [hsplit]
    show (if ip ++ fp ≠ [] ∧ (ip ++ fp).all isDig = true then
        some (decNorm true (valLE (((ip ++ fp).map digitVal).reverse)) fp.length)
      else none) = _
    rw [if_pos hcond]
    rfl
  | false =>
    show pyFloat (ip ++ '.' :: fp) = _
    match ip, hne with
    | c :: rest, _ =>
      have hc : isDig c = true := by
        rw [List.all_cons, Bool.and_eq_true] at hip
        exact hip.1
      have hcd : c ≠ '-' := by intro h; rw [h] at hc; cases hc
      have hcp : c ≠ '+' := by intro h; rw [h] at hc; cases hc
      rw [pyFloat.eq_def]
      split
      · next heq =>
        rw [List.cons_append] at heq
        exact absurd (List.cons_eq_cons.mp heq.symm).1.symm hcd
      · next heq =>
        rw [List.cons_append] at heq
        exact absurd (List.cons_eq_cons.mp heq.symm).1.symm hcp
      · dsimp only
        rw [hsplit]
        show (if (c :: rest) ++ fp ≠ [] ∧ ((c :: rest) ++ fp).all isDig = true then
            some (decNorm false (valLE ((((c :: rest) ++ fp).map digitVal).reverse)) fp.length)
          else none) = _
        rw [if_pos hcond]
        rfl

/-- Normalizing the adjusted mantissa/exponent pair recovers the decimal. -/
theorem decNorm_fixed (x : Decimal) (hn : x.IsNorm) :
    decNorm x.sign (fixedM x) (fixedE x) = x := by
  rw [fixedM, fixedE]
  by_cases h0 : x.exp = 0
  · rw [if_pos h0, if_pos h0, decNorm_mul10]
    rw [← h0]
    exact decNorm_self x hn
  · rw [if_neg h0, if_neg h0]
    exact decNorm_self x hn

/-- Python parses back the fixed-point `str` of a float exactly. -/
theorem pyFloat_floatChars (x : Decimal) (hn : x.IsNorm) (hf : decFixed x = true) :
    pyFloat (floatChars x) = some x := by
  rw [floatChars, if_pos hf, sgnChars, List.append_assoc,
    pyFloat_parts x.sign (ipChars x) (fpChars x) (ipChars_all_isDig x) (fpChars_all_isDig x)
      (ipChars_ne_nil x),
    rdv_ip_fp, fpChars_length, decNorm_fixed x hn]

/-- Parsing a combined text with one extra trailing zero in the fraction gives
the same value. -/
theorem pyFloat_parts_zero (sgn : Bool) (ip fp : List Char)
    (hip : ip.all isDig = true) (hfp : fp.all isDig = true) (hne : ip ≠ []) :
    pyFloat ((if sgn then ['-'] else []) ++ (ip ++ '.' :: (fp ++ ['0'])))
      = some (decNorm sgn (rdv (ip ++ fp)) fp.length) := by
  rw [pyFloat_parts sgn ip (fp ++ ['0']) hip
    (by rw [List.all_append, hfp]; rfl) hne]
  congr 1
  rw [← List.append_assoc, rdv_concat_zero, List.length_append]
  rw [show fp.length + (['0'] : List Char).length = fp.length + 1 from rfl]
  rw [show 10 * rdv (ip ++ fp) = rdv (ip ++ fp) * 10 from by ring, decNorm_mul10]

/-- The fraction of a canonical fixed rendering never triggers the
trailing-zero flag. -/
theorem ez_fpChars (x : Decimal) (hn : x.IsNorm) : ez (fpChars x) = false := by
  by_cases hone : fixedE x = 1
  · rw [ez, fpChars_length, hone]
    rfl
  · have hexp : x.exp ≠ 0 := by
      intro h
      rw [fixedE, if_pos h] at hone
      exact hone rfl
    have hfe : fixedE x = x.exp := by rw [fixedE, if_neg hexp]
    have hm : x.mant % 10 ≠ 0 := by
      rcases hn with h | h
      · exact absurd h hexp
      · exact h
    have hm1 : 1 ≤ x.mant := by omega
    have hfm : fixedM x = x.mant := by rw [fixedM, if_neg hexp]
    rw [ez]
    have hlast : (fpChars x).getLast? = some (digitChar (x.mant % 10)) := by
      rw [fpChars, List.getLast?_reverse, List.head?_map]
      rw [fixedParts]
      dsimp only
      rw [List.head?_take, if_neg (show ¬fixedE x = 0 from by rw [fixedE]; split <;> omega)]
      rw [padTo, List.head?_append]
      rw [digitsLE_head (fixedM x) (by rw [hfm]; omega)]
      rw [hfm]
      rfl
    rw [hlast]
    have : (digitChar (x.mant % 10) == '0') = false := by
      have h10 : x.mant % 10 < 10 := by omega
      interval_cases h : x.mant % 10 <;> first | (exact absurd rfl hm) | rfl
    rw [show (some (digitChar (x.mant % 10)) == some '0')
      = (digitChar (x.mant % 10) == '0') from rfl, this, Bool.and_false]

/-- The flag-restoring write ends with the flag's own value. -/
theorem ez_fp_flag (x : Decimal) (hn : x.IsNorm) (b : Bool) :
    ez (fpChars x ++ (if b then ['0'] else [])) = b := by
  cases b with
  | false =>
    simp only [Bool.false_eq_true, if_false]
    rw [List.append_nil, ez_fpChars x hn]
  | true =>
    rw [if_pos rfl, ez, List.getLast?_append_cons, List.length_append]
    have h1 : 1 ≤ (fpChars x).length := by
      rw [fpChars_length, fixedE]
      split <;> omega
    rw [decide_eq_true (show 1 < (fpChars x).length + (['0'] : List Char).length from by
      rw [show (['0'] : List Char).length = 1 from rfl]
      omega)]
    rfl

/-- `putBuf` keeps the trailing-zero flag. -/
theorem putBuf_ez (st : PState) (r : Region) (b : EditBuffer) :
    (putBuf st r b).endingZero = st.endingZero := by
  cases r <;> rfl

/-- `cursor_set` keeps the trailing-zero flag. -/
theorem cursor_set_ez (st : PState) (r : Region) (v : Int) :
    (cursor_set st r v).endingZero = st.endingZero := by
  simp only [cursor_set]
  split_ifs <;> simp [putBuf_ez]

/-- An all-digits text is not the lone minus sign. -/
theorem all_isDig_ne_dash (cs : List Char) (h : cs.all isDig = true) : cs ≠ ['-'] := by
  intro hc
  rw [hc] at h
  cases h

/-- An all-digits text does not start with the minus sign. -/
theorem startsDash_digits (cs : List Char) (h : cs.all isDig = true) :
    startsDash cs = false := by
  cases cs with
  | nil => rfl
  | cons c rest =>
    rw [List.all_cons, Bool.and_eq_true] at h
    rw [startsDash.eq_def]
    split
    · next heq =>
      obtain ⟨rfl, -⟩ := List.cons_eq_cons.mp heq
      cases h.1
    · rfl

/-- The fractional rendering is nonempty. -/
theorem fpChars_ne_nil (x : Decimal) : fpChars x ≠ [] := by
  intro h
  have := congrArg List.length h
  rw [fpChars_length, List.length_nil, fixedE] at this
  revert this
  split <;> omega

/-- The whole-part rendering is nonempty. -/
theorem wholeChars_ne_nil (x : Decimal) : sgnChars x ++ ipChars x ≠ [] := by
  intro h
  exact ipChars_ne_nil x (List.append_eq_nil.mp h).2

/-- The whole-part rendering is not the lone minus sign. -/
theorem wholeChars_ne_dash (x : Decimal) : sgnChars x ++ ipChars x ≠ ['-'] := by
  rw [sgnChars]
  split
  · intro h
    rw [List.cons_append] at h
    exact ipChars_ne_nil x (List.cons_eq_cons.mp h).2
  · rw [List.nil_append]
    exact all_isDig_ne_dash _ (ipChars_all_isDig x)

/-- No decimal point inside the whole-part rendering. -/
theorem wholeChars_no_dot (x : Decimal) : '.' ∉ sgnChars x ++ ipChars x := by
  intro h
  rw [List.mem_append] at h
  rcases h with h | h
  · rw [sgnChars] at h
    revert h
    split
    · intro h
      rcases List.mem_singleton.mp h with h
      cases h
    · intro h
      cases h
  · exact no_dot_of_all_isDig (ipChars x) (ipChars_all_isDig x) h

/-- `str.split(".")` of a fixed-point rendering. -/
theorem dotSplit_floatChars (x : Decimal) (hfix : decFixed x = true) :
    dotSplit (floatChars x) = [sgnChars x ++ ipChars x, fpChars x] := by
  rw [floatChars, if_pos hfix]
  rw [show sgnChars x ++ ipChars x ++ '.' :: fpChars x
    = (sgnChars x ++ ipChars x) ++ '.' :: fpChars x from by rw [List.append_assoc]]
  rw [dotSplit_append _ _ (wholeChars_no_dot x),
    dotSplit_no_dot (fpChars x) (no_dot_of_all_isDig _ (fpChars_all_isDig x))]

/-- Parsing the whole rendering against the fraction (with the optional
restored trailing zero) recovers the decimal. -/
theorem pyFloat_whole_frac (x : Decimal) (hn : x.IsNorm) (b : Bool) :
    pyFloat ((sgnChars x ++ ipChars x) ++ '.' :: (fpChars x ++ (if b then ['0'] else [])))
      = some x := by
  cases b with
  | false =>
    rw [if_neg (by simp), List.append_nil, List.append_assoc]
    rw [show sgnChars x = if x.sign then ['-'] else [] from rfl]
    rw [pyFloat_parts x.sign _ _ (ipChars_all_isDig x) (fpChars_all_isDig x) (ipChars_ne_nil x),
      rdv_ip_fp, fpChars_length, decNorm_fixed x hn]
  | true =>
    rw [if_pos rfl, List.append_assoc]
    rw [show sgnChars x = if x.sign then ['-'] else [] from rfl]
    rw [pyFloat_parts_zero x.sign _ _ (ipChars_all_isDig x) (fpChars_all_isDig x)
      (ipChars_ne_nil x), rdv_ip_fp, fpChars_length, decNorm_fixed x hn]

/-- The getter on a float state whose combined text parses. -/
theorem value_get_float_some (u : PState) (x : Decimal) (hf : u.float = true)
    (hp : pyFloat (u.whole.text ++ '.' :: u.integral.text) = some x) :
    value_get u = (.f x, { u with endingZero := ez u.integral.text }) := by
  rw [value_get, if_neg (by simp [hf])]
  dsimp only
  rw [hp]

/-- Rewriting the flag with its own value is the identity. -/
theorem setFlag_self (u : PState) : { u with endingZero := u.endingZero } = u := rfl

/-- A cursor move on one region leaves the other region's buffer untouched. -/
theorem cursor_set_other (st : PState) (r : Region) (v : Int) (r' : Region) (h : r' ≠ r) :
    bufOf (cursor_set st r v) r' = bufOf st r' := by
  simp only [cursor_set]
  split_ifs
  · rfl
  · rw [bufOf_putBuf, if_neg h, bufOf_putBuf, if_neg h]
  · rw [bufOf_putBuf, if_neg h]

/-- Writing the flag-restored fraction into the fractional buffer of a state
whose whole buffer already holds the value's whole rendering is stable: one
re-entrant `self.value = self.value` round rewrites both buffers with the same
text and the callbacks stop. -/
theorem setText_integral_stable (fuel : Nat) (u : PState) (x : Decimal) (b : Bool)
    (hf : u.float = true) (hn : x.IsNorm) (hfix : decFixed x = true)
    (hw : u.whole.text = sgnChars x ++ ipChars x)
    (hcl : clampVal u (.f x) = .f x)
    (hez : u.endingZero = b) :
    ∃ u', run (fuel + 4) u
        (.setText .integral (fpChars x ++ (if b then ['0'] else []))) = .ok u'
      ∧ u'.whole.text = sgnChars x ++ ipChars x
      ∧ u'.integral.text = fpChars x ++ (if b then ['0'] else [])
      ∧ u'.endingZero = b
      ∧ sameCfg u u'
      ∧ value_get u' = (.f x, u') := by
  set t := fpChars x ++ (if b then ['0'] else []) with hts
  have htdig : t.all isDig = true := by
    rw [hts, List.all_append, fpChars_all_isDig]
    cases b <;> rfl
  have htne : t ≠ [] := by
    rw [hts]
    intro h
    exact fpChars_ne_nil x (List.append_eq_nil.mp h).1
  have htlen : 1 ≤ t.length := by
    rcases hc : t with _ | ⟨c, r⟩
    · exact absurd hc htne
    · simp
  have hezt : ez t = b := by rw [hts]; exact ez_fp_flag x hn b
  have final : ∀ w : PState, w.float = true → w.whole.text = sgnChars x ++ ipChars x →
      w.integral.text = t → w.endingZero = b → value_get w = (.f x, w) := by
    intro w w1 w2 w3 w4
    rw [value_get_float_some w x w1 (by rw [w2, w3, hts]; exact pyFloat_whole_frac x hn b)]
    rw [w3, hezt, ← w4, setFlag_self]
  show ∃ u', run ((fuel + 3) + 1) u (.setText .integral t) = .ok u' ∧ _
  rw [run_succ_setText]
  dsimp only
  set st1 := if t.length < (bufOf u .integral).cursor
    then cursor_set u .integral (t.length : Int) else u with hst1
  have hcfg1 : sameCfg u st1 := by
    rw [hst1]
    split_ifs
    · exact sameCfg_cursor_set u _ _
    · exact sameCfg_refl u
  have hf1 : st1.float = true := by rw [hcfg1.1, hf]
  have hez1 : st1.endingZero = b := by
    rw [hst1]
    split_ifs
    · rw [cursor_set_ez, hez]
    · exact hez
  have hwt1 : st1.whole.text = sgnChars x ++ ipChars x := by
    rw [hst1]
    split_ifs
    · rw [show (cursor_set u .integral (t.length : Int)).whole.text
        = (bufOf (cursor_set u .integral (t.length : Int)) .whole).text from rfl,
        cursor_set_text]
      exact hw
    · exact hw
  have hcur1 : (bufOf st1 .integral).cursor ≤ t.length := by
    rw [hst1]
    split_ifs with hc
    · have := cursor_set_cursor_le u .integral (t.length : Int) (by omega)
      omega
    · omega
  by_cases ht : (bufOf st1 .integral).text = t
  · rw [if_pos ht]
    exact ⟨st1, rfl, hwt1, ht, hez1, hcfg1, final st1 hf1 hwt1 ht hez1⟩
  · rw [if_neg ht]
    set u2 := putBuf st1 .integral ⟨t, (bufOf st1 .integral).cursor⟩ with hu2
    have hcfg2 : sameCfg u u2 := sameCfg_trans hcfg1 (sameCfg_putBuf st1 .integral _)
    have hf2 : u2.float = true := by rw [hcfg2.1, hf]
    have hez2 : u2.endingZero = b := by rw [hu2, putBuf_ez, hez1]
    have hwt2 : u2.whole.text = sgnChars x ++ ipChars x := hwt1
    have hit2 : u2.integral.text = t := rfl
    have hcur2 : u2.integral.cursor ≤ t.length := hcur1
    show ∃ u', run ((fuel + 2) + 1) u2 (.onTextChanged .integral) = .ok u' ∧ _
    rw [run_succ_onTextChanged]
    dsimp only
    set st0 : PState := { u2 with integralWidth := (bufOf u2 .integral).text.length + 1 }
      with hst0
    have hcfg0 : sameCfg u st0 := sameCfg_trans hcfg2 ⟨rfl, rfl, rfl, rfl⟩
    have hf0 : st0.float = true := by rw [hcfg0.1, hf]
    have hez0 : st0.endingZero = b := hez2
    have hwt0 : st0.whole.text = sgnChars x ++ ipChars x := hwt2
    have hit0 : st0.integral.text = t := rfl
    have hcur0 : (bufOf st0 .integral).cursor ≤ t.length := hcur2
    rw [if_pos (show (bufOf st0 .integral).text ≠ [] ∧ (bufOf st0 .integral).text ≠ ['-']
      from ⟨hit0 ▸ htne, hit0 ▸ all_isDig_ne_dash t htdig⟩)]
    rw [final st0 hf0 hwt0 hit0 hez0]
    dsimp only
    rw [show fuel + 2 = (fuel + 1) + 1 from rfl, run_succ_value_set]
    dsimp only
    rw [clampVal_congr hcfg0, hcl]
    rw [if_neg (by simp [hf2])]
    rw [show pyStrChars (.f x) = floatChars x from rfl, dotSplit_floatChars x hfix]
    dsimp only
    rw [run_succ_setText]
    dsimp only
    set st1' := if (sgnChars x ++ ipChars x).length < (bufOf st0 .whole).cursor
      then cursor_set st0 .whole (((sgnChars x ++ ipChars x).length : Int)) else st0
      with hst1'
    have hwt1' : (bufOf st1' .whole).text = sgnChars x ++ ipChars x := by
      rw [hst1']
      split_ifs
      · rw [cursor_set_text]
        exact hwt0
      · exact hwt0
    rw [if_pos hwt1']
    simp only [R.bind]
    have hcfg1' : sameCfg u st1' := by
      rw [hst1']
      split_ifs
      · exact sameCfg_trans hcfg0 (sameCfg_cursor_set st0 _ _)
      · exact hcfg0
    have hf1' : st1'.float = true := by rw [hcfg1'.1, hf]
    have hez1' : st1'.endingZero = b := by
      rw [hst1']
      split_ifs
      · rw [cursor_set_ez]
        exact hez0
      · exact hez0
    have hib1' : bufOf st1' .integral = bufOf st0 .integral := by
      rw [hst1']
      split_ifs
      · exact cursor_set_other st0 .whole _ .integral (by intro h; cases h)
      · rfl
    have hit1' : st1'.integral.text = t := by
      rw [show st1'.integral.text = (bufOf st1' .integral).text from rfl, hib1']
      exact hit0
    have hcur1' : (bufOf st1' .integral).cursor ≤ t.length := by rw [hib1']; exact hcur0
    rw [run_succ_setText]
    dsimp only
    rw [show (if st1'.endingZero = true then fpChars x ++ ['0'] else fpChars x) = t from by
      rw [hez1', hts]
      cases b <;> simp]
    rw [if_neg (show ¬t.length < (bufOf st1' .integral).cursor from by omega)]
    rw [if_pos (show (bufOf st1' .integral).text = t from by rw [hib1']; exact hit0)]
    simp only [R.bind]
    rw [if_neg (show ¬(startsDash (bufOf st1' .integral).text
        && (bufOf st1' .integral).cursor == 0) = true from by
      rw [hib1']
      show ¬(startsDash t && (bufOf st0 Region.integral).cursor == 0) = true
      rw [startsDash_digits t htdig]
      simp)]
    refine ⟨st1', rfl, ?_, hit1', hez1', hcfg1', final st1' hf1' ?_ hit1' hez1'⟩
    · exact hwt1'
    · exact hwt1'

/-- The integer-part digits are the LE digits of the integer part. -/
theorem ipChars_of_ipnat (x : Decimal) :
    ipChars x = ((if decIpnat x = 0 then [0] else digitsLE (decIpnat x)).map digitChar).reverse := by
  have hq : fixedM x / 10 ^ fixedE x = decIpnat x := by
    rw [fixedM, fixedE, decIpnat]
    by_cases h0 : x.exp = 0
    · rw [if_pos h0, if_pos h0, h0, pow_one, pow_zero, Nat.div_one,
        Nat.mul_div_cancel _ (by omega)]
    · rw [if_neg h0, if_neg h0]
  rw [ipChars, fixedParts_snd, hq]

/-- Re-parsing the rendered integer part with an arbitrary digit fraction keeps
the integer part. -/
theorem decIpnat_mid (v : Decimal) (fr : List Char) (hdig : fr.all isDig = true) :
    decIpnat (decNorm v.sign (rdv (ipChars v ++ fr)) fr.length) = decIpnat v := by
  rw [decIpnat_decNorm, rdv_append,
    Nat.add_mul_div_left _ _ (Nat.pos_pow_of_pos fr.length (by omega)),
    Nat.div_eq_of_lt (rdv_lt fr hdig), Nat.zero_add, rdv_ipChars]

/-- Re-parsing the rendered whole part with an arbitrary digit fraction keeps
the whole-part rendering (sign and integer digits). -/
theorem wholeChars_mid (v : Decimal) (fr : List Char) (hdig : fr.all isDig = true) :
    sgnChars (decNorm v.sign (rdv (ipChars v ++ fr)) fr.length) ++
      ipChars (decNorm v.sign (rdv (ipChars v ++ fr)) fr.length)
    = sgnChars v ++ ipChars v := by
  rw [show sgnChars (decNorm v.sign (rdv (ipChars v ++ fr)) fr.length)
      = sgnChars v from by rw [sgnChars, sgnChars, decNorm_sign]]
  rw [ipChars_of_ipnat (decNorm v.sign (rdv (ipChars v ++ fr)) fr.length),
    decIpnat_mid v fr hdig, ← ipChars_of_ipnat v]

/-- Float-mode `value = v` round trip: with well-formed buffers (all-digit
fractional text, trailing-zero flag consistent with it), a clamp-invariant
fixed-notation value `v`, and a transient value (new whole text combined with
the old fractional text) that is also clamp-invariant and fixed-notation, the
setter terminates, writes `v`'s rendering into both buffers (re-appending the
flagged trailing zero), and the getter then reads back exactly `v`. -/
theorem value_set_float_spec (fuel : Nat) (st : PState) (v : Decimal)
    (hf : st.float = true) (hn : v.IsNorm) (hfix : decFixed v = true)
    (hcl : clampVal st (.f v) = .f v)
    (hIdig : st.integral.text.all isDig = true)
    (hez : st.endingZero = ez st.integral.text)
    (hclmid : clampVal st
      (.f (decNorm v.sign (rdv (ipChars v ++ st.integral.text)) st.integral.text.length))
      = .f (decNorm v.sign (rdv (ipChars v ++ st.integral.text)) st.integral.text.length))
    (hmidfix : decFixed
      (decNorm v.sign (rdv (ipChars v ++ st.integral.text)) st.integral.text.length) = true) :
    ∃ st', value_set (fuel + 8) st (.f v) = .ok st'
      ∧ st'.whole.text = sgnChars v ++ ipChars v
      ∧ st'.integral.text = fpChars v ++ (if st.endingZero then ['0'] else [])
      ∧ st'.endingZero = st.endingZero
      ∧ sameCfg st st'
      ∧ value_get st' = (.f v, st') := by
  set vmid := decNorm v.sign (rdv (ipChars v ++ st.integral.text)) st.integral.text.length
    with hvm
  have hW : sgnChars vmid ++ ipChars vmid = sgnChars v ++ ipChars v := by
    rw [hvm]
    exact wholeChars_mid v st.integral.text hIdig
  show ∃ st', run ((fuel + 7) + 1) st (.value_set (.f v)) = .ok st' ∧ _
  rw [run_succ_value_set]
  dsimp only
  rw [hcl]
  rw [if_neg (show ¬st.float = false from by rw [hf]; simp)]
  rw [show pyStrChars (.f v) = floatChars v from rfl, dotSplit_floatChars v hfix]
  dsimp only
  rw [show (fuel + 7 : Nat) = (fuel + 6) + 1 from rfl, run_succ_setText]
  dsimp only
  set s1 := if (sgnChars v ++ ipChars v).length < (bufOf st .whole).cursor
    then cursor_set st .whole ((sgnChars v ++ ipChars v).length : Int) else st with hs1
  have hcfgs1 : sameCfg st s1 := by
    rw [hs1]
    split_ifs
    · exact sameCfg_cursor_set st _ _
    · exact sameCfg_refl st
  have hezs1 : s1.endingZero = st.endingZero := by
    rw [hs1]
    split_ifs
    · exact cursor_set_ez st _ _
    · rfl
  have his1 : bufOf s1 .integral = bufOf st .integral := by
    rw [hs1]
    split_ifs
    · exact cursor_set_other st .whole _ .integral (by intro h; cases h)
    · rfl
  by_cases hweq : (bufOf s1 .whole).text = sgnChars v ++ ipChars v
  · rw [if_pos hweq]
    simp only [R.bind]
    rw [show (if s1.endingZero = true then fpChars v ++ ['0'] else fpChars v)
        = fpChars v ++ (if st.endingZero then ['0'] else []) from by
      rw [hezs1]
      cases st.endingZero <;> simp]
    rw [show ((fuel + 6) + 1 : Nat) = (fuel + 3) + 4 from rfl]
    obtain ⟨st', hrun', p1, p2, p3, pcfg, pget⟩ :=
      setText_integral_stable (fuel + 3) s1 v st.endingZero
        (by rw [hcfgs1.1, hf]) hn hfix hweq
        (by rw [clampVal_congr hcfgs1, hcl]) hezs1
    exact ⟨st', hrun', p1, p2, p3, sameCfg_trans hcfgs1 pcfg, pget⟩
  · rw [if_neg hweq]
    set s2 := putBuf s1 .whole
      { bufOf s1 .whole with text := sgnChars v ++ ipChars v } with hs2
    have hcfgs2 : sameCfg st s2 := sameCfg_trans hcfgs1 (sameCfg_putBuf s1 .whole _)
    rw [show (fuel + 6 : Nat) = (fuel + 5) + 1 from rfl, run_succ_onTextChanged]
    dsimp only
    set st0 : PState := { s2 with wholeWidth := (bufOf s2 Region.whole).text.length + 1 }
      with hst0
    have hcfg0 : sameCfg st st0 := sameCfg_trans hcfgs2 ⟨rfl, rfl, rfl, rfl⟩
    have hf0 : st0.float = true := by rw [hcfg0.1, hf]
    have hwt0 : st0.whole.text = sgnChars v ++ ipChars v := rfl
    have hist0 : st0.integral.text = st.integral.text := by
      rw [show st0.integral = bufOf s1 Region.integral from rfl, his1]
      rfl
    have hez0 : st0.endingZero = st.endingZero := hezs1
    rw [if_pos (show (bufOf st0 Region.whole).text ≠ [] ∧ (bufOf st0 Region.whole).text ≠ ['-']
      from ⟨wholeChars_ne_nil v, wholeChars_ne_dash v⟩)]
    have hparse : pyFloat (st0.whole.text ++ '.' :: st0.integral.text) = some vmid := by
      rw [hwt0, hist0, hvm, List.append_assoc,
        show sgnChars v = if v.sign then ['-'] else [] from rfl]
      exact pyFloat_parts v.sign (ipChars v) st.integral.text
        (ipChars_all_isDig v) hIdig (ipChars_ne_nil v)
    have hget : value_get st0 = (.f vmid, st0) := by
      rw [value_get_float_some st0 vmid hf0 hparse, hist0, ← hez, ← hez0, setFlag_self]
    rw [hget]
    dsimp only
    rw [show (fuel + 5 : Nat) = (fuel + 4) + 1 from rfl, run_succ_value_set]
    dsimp only
    rw [clampVal_congr hcfg0, hclmid]
    rw [if_neg (show ¬st0.float = false from by rw [hf0]; simp)]
    rw [show pyStrChars (.f vmid) = floatChars vmid from rfl, dotSplit_floatChars vmid hmidfix]
    dsimp only
    rw [hW]
    rw [show (fuel + 4 : Nat) = (fuel + 3) + 1 from rfl, run_succ_setText]
    dsimp only
    set s3 := if (sgnChars v ++ ipChars v).length < (bufOf st0 .whole).cursor
      then cursor_set st0 .whole ((sgnChars v ++ ipChars v).length : Int) else st0 with hs3
    have hwts3 : (bufOf s3 .whole).text = sgnChars v ++ ipChars v := by
      rw [hs3]
      split_ifs
      · rw [cursor_set_text]
        exact hwt0
      · exact hwt0
    rw [if_pos hwts3]
    simp only [R.bind]
    have hcfgs3 : sameCfg st s3 := by
      rw [hs3]
      split_ifs
      · exact sameCfg_trans hcfg0 (sameCfg_cursor_set st0 _ _)
      · exact hcfg0
    have hezs3 : s3.endingZero = st.endingZero := by
      rw [hs3]
      split_ifs
      · rw [cursor_set_ez]
        exact hez0
      · exact hez0
    rw [show (if s3.endingZero = true then fpChars vmid ++ ['0'] else fpChars vmid)
        = fpChars vmid ++ (if st.endingZero then ['0'] else []) from by
      rw [hezs3]
      cases st.endingZero <;> simp]
    rw [show ((fuel + 3) + 1 : Nat) = fuel + 4 from rfl]
    obtain ⟨m1, hrunm1, q1, q2, q3, qcfg, qget⟩ :=
      setText_integral_stable fuel s3 vmid st.endingZero
        (by rw [hcfgs3.1, hf]) (hvm ▸ decNorm_isNorm v.sign st.integral.text.length _) hmidfix
        (by rw [hW]; exact hwts3)
        (by rw [clampVal_congr hcfgs3, hclmid]) hezs3
    rw [hrunm1]
    simp only [R.bind]
    set m2 := if startsDash (bufOf m1 Region.whole).text && (bufOf m1 Region.whole).cursor == 0
      then cursor_set m1 Region.whole 1 else m1 with hm2
    have hcfgm2 : sameCfg st m2 := by
      rw [hm2]
      split_ifs
      · exact sameCfg_trans (sameCfg_trans hcfgs3 qcfg) (sameCfg_cursor_set m1 _ _)
      · exact sameCfg_trans hcfgs3 qcfg
    have hwtm2 : m2.whole.text = sgnChars v ++ ipChars v := by
      rw [hm2]
      split_ifs
      · rw [show (cursor_set m1 Region.whole 1).whole.text
          = (bufOf (cursor_set m1 Region.whole 1) Region.whole).text from rfl,
          cursor_set_text]
        rw [show (bufOf m1 Region.whole).text = m1.whole.text from rfl, q1, hW]
      · rw [q1, hW]
    have hezm2 : m2.endingZero = st.endingZero := by
      rw [hm2]
      split_ifs
      · rw [cursor_set_ez]
        exact q3
      · exact q3
    rw [show (if m2.endingZero = true then fpChars v ++ ['0'] else fpChars v)
        = fpChars v ++ (if st.endingZero then ['0'] else []) from by
      rw [hezm2]
      cases st.endingZero <;> simp]
    rw [show ((fuel + 6) + 1 : Nat) = (fuel + 3) + 4 from rfl]
    obtain ⟨st', hrun', p1, p2, p3, pcfg, pget⟩ :=
      setText_integral_stable (fuel + 3) m2 v st.endingZero
        (by rw [hcfgm2.1, hf]) hn hfix hwtm2
        (by rw [clampVal_congr hcfgm2, hcl]) hezm2
    exact ⟨st', hrun', p1, p2, p3, sameCfg_trans hcfgm2 pcfg, pget⟩


/-- C1 counterexample: float mode with both bounds configured (`[0.0, 1.0]`),
and the in-range value `1e-05`: the setter crashes (its `str()` is scientific,
has no `'.'`, and the two-name tuple unpacking of `split('.')` raises), so
`set_value(v)` followed by `get_value()` does not return `v`. -/
theorem c1_counterexample :
    c1State.min? = some (.f ⟨false, 0, 0⟩)
      ∧ c1State.max? = some (.f ⟨false, 1, 0⟩)
      ∧ clampVal c1State (.f ⟨false, 1, 5⟩) = .f ⟨false, 1, 5⟩
      ∧ floatChars ⟨false, 1, 5⟩ = chars "1e-05"
      ∧ value_set 20 c1State (.f ⟨false, 1, 5⟩) = .crash c1State := by
  decide

/-- C1 amended: the set-then-get round trip returns exactly `v` for clamp-fixed
`v` (in particular any `v` within configured `[min, max]`): unconditionally in
integer mode, and in float mode when `str(v)` is fixed-notation (otherwise the
setter crashes, see the counterexample) and the buffers are well-formed — the
fractional text is all digits with a consistent trailing-zero flag and the
transient value formed from `v`'s whole part with the old fractional text is
itself in range and fixed-notation. -/
theorem c1_amended (fuel : Nat) (sti stf : PState) (n : Int) (v : Decimal)
    (hfi : sti.float = false) (hcli : clampVal sti (.i n) = .i n)
    (hff : stf.float = true) (hn : v.IsNorm) (hfix : decFixed v = true)
    (hclf : clampVal stf (.f v) = .f v)
    (hIdig : stf.integral.text.all isDig = true)
    (hez : stf.endingZero = ez stf.integral.text)
    (hclmid : clampVal stf
      (.f (decNorm v.sign (rdv (ipChars v ++ stf.integral.text)) stf.integral.text.length))
      = .f (decNorm v.sign (rdv (ipChars v ++ stf.integral.text)) stf.integral.text.length))
    (hmidfix : decFixed
      (decNorm v.sign (rdv (ipChars v ++ stf.integral.text)) stf.integral.text.length)
      = true) :
    (∃ st', value_set (fuel + 5) sti (.i n) = .ok st' ∧ value_get st' = (.i n, st'))
      ∧ (∃ st', value_set (fuel + 8) stf (.f v) = .ok st' ∧ value_get st' = (.f v, st')) := by
  constructor
  · obtain ⟨st', h1, _, _, h4⟩ := value_set_int_spec fuel sti n hfi hcli
    exact ⟨st', h1, h4⟩
  · obtain ⟨st', h1, _, _, _, _, h6⟩ :=
      value_set_float_spec fuel stf v hff hn hfix hclf hIdig hez hclmid hmidfix
    exact ⟨st', h1, h6⟩

/-- Witness for C1's amended theorem: integer round trip of `3` in `[0, 10]`
and float round trip of `1.5` in `[0.0, 2.0]` over fractional buffer `"25"`. -/
theorem c1_amended_witness :
    (∃ st', value_set 10 c1IntState (.i 3) = .ok st' ∧ value_get st' = (.i 3, st'))
      ∧ (∃ st', value_set 13 c1FloatState (.f ⟨false, 15, 1⟩) = .ok st'
          ∧ value_get st' = (.f ⟨false, 15, 1⟩, st')) :=
  c1_amended 5 c1IntState c1FloatState 3 ⟨false, 15, 1⟩ (by decide) (by decide)
    (by decide) (by decide) (by decide) (by decide) (by decide) (by decide)
    (by decide) (by decide)

/-- C7: trailing-zero preservation in float mode.  Writing a value appends a
literal `"0"` to the fractional text exactly when the `ending_zero` flag is set
(never inventing an unflagged trailing zero, never dropping a flagged one), the
flag survives the write, and the following read returns the value itself —
`1.5` and `1.50` buffer forms are reproduced consistently with the prior flag.
Stated over well-formed buffers: all-digit fractional text with a consistent
flag, a clamp-fixed fixed-notation value, and an in-range fixed-notation
transient value. -/
theorem c7_trailing_zero (fuel : Nat) (st : PState) (v : Decimal)
    (hf : st.float = true) (hn : v.IsNorm) (hfix : decFixed v = true)
    (hcl : clampVal st (.f v) = .f v)
    (hIdig : st.integral.text.all isDig = true)
    (hez : st.endingZero = ez st.integral.text)
    (hclmid : clampVal st
      (.f (decNorm v.sign (rdv (ipChars v ++ st.integral.text)) st.integral.text.length))
      = .f (decNorm v.sign (rdv (ipChars v ++ st.integral.text)) st.integral.text.length))
    (hmidfix : decFixed
      (decNorm v.sign (rdv (ipChars v ++ st.integral.text)) st.integral.text.length)
      = true) :
    ∃ st', value_set (fuel + 8) st (.f v) = .ok st'
      ∧ st'.integral.text = fpChars v ++ (if st.endingZero then ['0'] else [])
      ∧ (st'.integral.text = fpChars v ++ ['0'] ↔ st.endingZero = true)
      ∧ st'.endingZero = st.endingZero
      ∧ value_get st' = (.f v, st') := by
  obtain ⟨st', h1, _, h3, h4, _, h6⟩ :=
    value_set_float_spec fuel st v hf hn hfix hcl hIdig hez hclmid hmidfix
  refine ⟨st', h1, h3, ?_, h4, h6⟩
  cases hb : st.endingZero with
  | false =>
    rw [hb] at h3
    simp only [Bool.false_eq_true, if_false, List.append_nil] at h3
    constructor
    · intro hT
      rw [h3] at hT
      have := congrArg List.length hT
      rw [List.length_append] at this
      simp at this
    · intro hF
      cases hF
  | true =>
    rw [hb] at h3
    simp only [if_pos] at h3
    exact ⟨fun _ => rfl, fun _ => h3⟩

/-- Witness for C7: from the `1.50` form (fractional buffer `"50"`, flag set),
writing `1.5` keeps the trailing zero — the fractional buffer again reads
`"50"` — and the read returns `1.5`. -/
theorem c7_trailing_zero_witness :
    ∃ st', value_set 13 c7State (.f ⟨false, 15, 1⟩) = .ok st'
      ∧ st'.integral.text = fpChars ⟨false, 15, 1⟩ ++ (if c7State.endingZero then ['0'] else [])
      ∧ (st'.integral.text = fpChars ⟨false, 15, 1⟩ ++ ['0'] ↔ c7State.endingZero = true)
      ∧ st'.endingZero = c7State.endingZero
      ∧ value_get st' = (.f ⟨false, 15, 1⟩, st') :=
  c7_trailing_zero 5 c7State ⟨false, 15, 1⟩ (by decide) (by decide) (by decide)
    (by decide) (by decide) (by decide) (by decide) (by decide)
